import Mathlib

/-!
The program `redislockrun`: a run-under-lock guard backed by a key-value store.

A shallow embedding of `redislockrun.go`.  The program stores, under one
configured key, the decimal text of the whole second at which the holder's
lock expires, and runs a child command only after taking that key.

Conventions of the embedding

* An instant (`time.Time`) is an integer count of nanoseconds since the Unix
  epoch.  Every comparison in the source has a `time.Unix` value on one side,
  so only the wall clock matters.  Go's own range (hundreds of billions of
  years) is never reached by `now + timeout + 1s`, so instants are unbounded.
* Every `time.Now()` in the source is an explicit argument: the reading taken
  at that program point.
* The store client and the child process are external collaborators; what they
  answer on each call is an explicit argument as well.
-/

namespace RedisLockRun

/-! ## `time` -/

/-- An instant: nanoseconds since the Unix epoch. -/
abbrev Time := Int

/-- A `time.Duration`: a signed count of nanoseconds. -/
abbrev Duration := Int

/-- The constant `time.Second`. -/
def Second : Duration := 1000000000

/-- The function `time.Unix(sec, 0)`: the instant `sec` whole seconds after the epoch. -/
def timeUnix (sec : Int) : Time := sec * 1000000000

/-- The method `t.Unix()`: whole seconds since the epoch, rounded down. -/
def unixSeconds (t : Time) : Int := Int.fdiv t 1000000000

/-- The method `t.Add(d)`. -/
def Add (t : Time) (d : Duration) : Time := t + d

/-- The method `t.Before(u)`. -/
def Before (t u : Time) : Bool := decide (t < u)

/-- The method `t.After(u)`. -/
def After (t u : Time) : Bool := decide (u < t)

/-! ## `strconv` -/

/-- The two causes a `strconv.NumError` can carry. -/
inductive NumError
  | ErrSyntax
  | ErrRange
  deriving DecidableEq, Repr

/-- The byte `'0' + d` for a decimal digit `d`. -/
def digitChar (d : Nat) : Char := Char.ofNat (48 + d)

/-- The digit loop of `strconv.FormatInt` in base 10: peel the last digit off
`u` while `u >= 10`, writing right to left in front of `acc`. -/
def formatBits : Nat → Nat → List Char → List Char
  | 0, u, acc => digitChar (u % 10) :: acc
  | fuel + 1, u, acc =>
    if 10 ≤ u then formatBits fuel (u / 10) (digitChar (u % 10) :: acc)
    else digitChar u :: acc

/-- The call `strconv.FormatInt(i, 10)`: sign, then the decimal digits of the magnitude. -/
def FormatInt (i : Int) : String :=
  if i < 0 then String.mk ('-' :: formatBits i.natAbs i.natAbs [])
  else String.mk (formatBits i.natAbs i.natAbs [])

/-- The value of a byte as a decimal digit, when it is one. -/
def digitVal (c : Char) : Option Nat :=
  if 48 ≤ c.toNat ∧ c.toNat ≤ 57 then some (c.toNat - 48) else none

/-- The constant `maxUint64/10 + 1`, the base-10 cutoff of `strconv.ParseUint`. -/
def cutoff64 : Nat := 18446744073709551615 / 10 + 1

/-- The loop of `strconv.ParseUint` in base 10 over the bytes of the text, `n`
being the `uint64` accumulator and `maxVal = 1<<bitSize - 1`.  A byte that is
not a digit ends the loop with `(0, ErrSyntax)`; an overflow ends it at once
with `(maxVal, ErrRange)`, the rest of the text unread. -/
def parseUintLoop (maxVal : Nat) : List Char → Nat → Nat × Option NumError
  | [], n => (n, none)
  | c :: cs, n =>
    match digitVal c with
    | none => (0, some NumError.ErrSyntax)
    | some d =>
      if cutoff64 ≤ n then (maxVal, some NumError.ErrRange)
      else
        let n1 := (n * 10 + d) % 2 ^ 64
        if n1 < n ∨ maxVal < n1 then (maxVal, some NumError.ErrRange)
        else parseUintLoop maxVal cs n1

/-- The call `strconv.ParseUint(s, 10, bitSize)` on the bytes of `s`. -/
def ParseUint (s : List Char) (bitSize : Nat) : Nat × Option NumError :=
  match s with
  | [] => (0, some NumError.ErrSyntax)
  | _ :: _ => parseUintLoop (2 ^ bitSize - 1) s 0

/-- The call `strconv.ParseInt(s, 10, bitSize)`: the value and the error.  On a
syntax error the value is 0; on a range error it is the bound of the right
sign, `2^(bitSize-1) - 1` or `-2^(bitSize-1)`. -/
def ParseInt (s : String) (bitSize : Nat) : Int × Option NumError :=
  match s.data with
  | [] => (0, some NumError.ErrSyntax)
  | c :: cs =>
    let neg : Bool := c = '-'
    let body : List Char := if c = '+' ∨ c = '-' then cs else c :: cs
    let r := ParseUint body bitSize
    if r.2 = some NumError.ErrSyntax then (0, r.2)
    else
      let cutoff : Nat := 2 ^ (bitSize - 1)
      if neg = false ∧ cutoff ≤ r.1 then ((cutoff : Int) - 1, some NumError.ErrRange)
      else if neg = true ∧ cutoff < r.1 then (-(cutoff : Int), some NumError.ErrRange)
      else (if neg then -(r.1 : Int) else (r.1 : Int), none)

/-! ## The store client -/

/-- A Go `error` value: `none` is `nil`, `some msg` an error with that message. -/
abbrev error := Option String

/-- The contents of the store: the bytes under each key, if the key exists. -/
abbrev Store := String → Option String

/-- The store with `val` written under `key`. -/
def Store.set (st : Store) (key val : String) : Store :=
  fun k => if k = key then some val else st k

/-- The store with `key` removed. -/
def Store.del (st : Store) (key : String) : Store :=
  fun k => if k = key then none else st k

/-- A command sent to the store. -/
inductive Call
  | Setnx (key val : String)
  | Get (key : String)
  | Getset (key val : String)
  | Del (key : String)
  deriving DecidableEq, Repr

/-- Everything outside the process: the contents of the store, the commands
that were sent to it (oldest first) and the child commands that were handed to
`cmd.Run()` (oldest first). -/
structure World where
  store : Store
  calls : List Call
  spawned : List (List String)

/-- Modelled from the spec: the store client, package `github.com/hoisie/redis`,
which the program imports and the repository does not contain.  Section 6:
`setIfAbsent(key, value) -> bool`, atomic, and "all operations may fail with a
transport/availability error".  `up` tells whether this call reaches the store;
a call that does not changes nothing and returns `false` with an error. -/
def World.Setnx (w : World) (up : Bool) (key val : String) : (Bool × error) × World :=
  let w1 : World := ⟨w.store, w.calls ++ [Call.Setnx key val], w.spawned⟩
  if up then
    match w.store key with
    | none => ((true, none), ⟨w.store.set key val, w1.calls, w1.spawned⟩)
    | some _ => ((false, none), w1)
  else ((false, some "store unavailable"), w1)

/-- Modelled from the spec: the store client's `get(key) -> valueOrAbsent`
(section 6).  The Go signature is `([]byte, error)`: a missing key is reported
through the error, and so is a call that does not reach the store. -/
def World.Get (w : World) (up : Bool) (key : String) : (String × error) × World :=
  let w1 : World := ⟨w.store, w.calls ++ [Call.Get key], w.spawned⟩
  if up then
    match w.store key with
    | some v => ((v, none), w1)
    | none => (("", some "key does not exist"), w1)
  else (("", some "store unavailable"), w1)

/-- Modelled from the spec: the store client's atomic
`getAndSet(key, value) -> previousValueOrAbsent` (section 6).  An absent
previous value comes back as no bytes at all. -/
def World.Getset (w : World) (up : Bool) (key val : String) : (String × error) × World :=
  let w1 : World := ⟨w.store, w.calls ++ [Call.Getset key val], w.spawned⟩
  if up then
    ((((w.store key).getD ""), none), ⟨w.store.set key val, w1.calls, w1.spawned⟩)
  else (("", some "store unavailable"), w1)

/-- Modelled from the spec: the store client's `delete(key)` (section 6). -/
def World.Del (w : World) (up : Bool) (key : String) : (Bool × error) × World :=
  let w1 : World := ⟨w.store, w.calls ++ [Call.Del key], w.spawned⟩
  if up then
    (((w.store key).isSome, none), ⟨w.store.del key, w1.calls, w1.spawned⟩)
  else ((false, some "store unavailable"), w1)

/-! ## The program -/

/-- Function `makeExpiryTime` (lines 57-63); `now` is the reading of line 58. -/
def makeExpiryTime (now : Time) (LockTimeout : Duration) : Time :=
  let expire := now
  let expire := Add expire LockTimeout
  let expire := Add expire (1 * Second)
  expire

/-- Function `getLockExpire` (lines 101-113); `up` is the fate of the `Get`
of line 102 and `now` the reading of line 112.  The error of `ParseInt` is
dropped, as on line 105. -/
def getLockExpire (w : World) (key : String) (up : Bool) (now : Time) :
    (Time × error) × World :=
  match w.Get up key with
  | ((resp, err), w1) =>
    if err = none then
      let val := (ParseInt resp 32).1
      ((timeUnix val, none), w1)
    else ((now, err), w1)

/-- What the surroundings answer during one call of `unlock`. -/
structure Release where
  /-- The `Get` of line 102 reaches the store. -/
  getUp : Bool
  /-- The clock at line 112. -/
  nowRead : Time
  /-- The clock at line 67. -/
  now : Time
  /-- The `Del` of line 72 reaches the store. -/
  delUp : Bool

/-- Function `unlock` (lines 65-74). -/
def unlock (w : World) (key : String) (r : Release) : World :=
  match getLockExpire w key r.getUp r.nowRead with
  | ((expire, err), w1) =>
    let now := r.now
    if err = none ∧ Before now expire = true then (w1.Del r.delUp key).2
    else w1

/-- Function `unlockAndLock` (lines 76-99); `up` is the fate of the `Getset`
of line 77 and `now` the reading of line 85.  The error of `ParseInt` is
dropped, as on line 83. -/
def unlockAndLock (w : World) (key : String) (expire : Time) (up : Bool) (now : Time) :
    error × World :=
  match w.Getset up key (FormatInt (unixSeconds expire)) with
  | ((resp, err), w1) =>
    if err ≠ none then (err, w1)
    else
      let unixTimeStamp := (ParseInt resp 32).1
      let timestamp := timeUnix unixTimeStamp
      if Before now timestamp = true then (some "Locked", w1)
      else (none, w1)

/-- Function `safelyRun` (lines 40-55).  `runErr` tells whether `cmd.Run()`
returned an error (the child could not be started or exited non-zero).  On an
error the function panics, the deferred handler recovers, logs and calls
`unlock`, and the function returns normally. -/
def safelyRun (w : World) (key name : String) (args : List String) (runErr : Bool)
    (r : Release) : World :=
  let w1 : World := ⟨w.store, w.calls, w.spawned ++ [name :: args]⟩
  if runErr then unlock w1 key r else w1

/-- What the surroundings answer during one run of the program. -/
structure Env where
  /-- The field `config.Key`. -/
  Key : String
  /-- The field `config.LockTimeout`. -/
  LockTimeout : Duration
  /-- The result of `flag.Args()`. -/
  cmdArgs : List String
  /-- The clock at line 58. -/
  now0 : Time
  /-- The `Setnx` of line 132 reaches the store. -/
  setnxUp : Bool
  /-- The `Get` of line 102, called from line 133, reaches the store. -/
  getUp : Bool
  /-- The clock at line 112, called from line 133. -/
  nowRead : Time
  /-- The clock at line 134. -/
  now1 : Time
  /-- The `Getset` of line 77 reaches the store. -/
  getsetUp : Bool
  /-- The clock at line 85. -/
  now2 : Time
  /-- The call `cmd.Run()` of line 52 returns an error. -/
  runErr : Bool
  /-- The `unlock` of line 44. -/
  recovered : Release
  /-- The deferred `unlock` of line 152. -/
  deferred : Release

/-- The way a run leaves lines 132-150 of `main`. -/
inductive Path
  /-- Line 132 created the key. -/
  | created
  /-- Line 133 got an error: no branch is taken. -/
  | unread
  /-- Line 138: the swap of line 137 succeeded. -/
  | reacquired
  /-- Line 142: the swap of line 137 failed, `os.Exit(1)`. -/
  | lost
  /-- Line 147: the lock is not expired, `os.Exit(1)`. -/
  | locked
  deriving DecidableEq, Repr

/-- The run goes on to line 152. -/
def Path.proceeds : Path → Bool
  | Path.created => true
  | Path.unread => true
  | Path.reacquired => true
  | Path.lost => false
  | Path.locked => false

/-- Lines 127-150 of `main`. -/
def acquire (e : Env) (w : World) : Path × World :=
  let expire := makeExpiryTime e.now0 e.LockTimeout
  match w.Setnx e.setnxUp e.Key (FormatInt (unixSeconds expire)) with
  | ((ok, _), w1) =>
    if ok = true then (Path.created, w1)
    else
      match getLockExpire w1 e.Key e.getUp e.nowRead with
      | ((timeout, err), w2) =>
        if err = none then
          if After e.now1 timeout = true then
            match unlockAndLock w2 e.Key expire e.getsetUp e.now2 with
            | (err2, w3) =>
              if err2 = none then (Path.reacquired, w3) else (Path.lost, w3)
          else (Path.locked, w2)
        else (Path.unread, w2)

/-- The end of a run: the world it leaves and the exit status of the process. -/
structure Result where
  world : World
  exit : Nat

/-- Lines 152-160 of `main`; `w` is the world as it stands when the child
returns, with whatever other invocations did in the meantime.  With no command
line 155 indexes an empty slice: the run panics, the deferred `unlock` runs and
the process dies with status 2.  Otherwise `main` returns and the status is 0. -/
def guarded (e : Env) (w : World) : Result :=
  match e.cmdArgs with
  | [] => ⟨unlock w e.Key e.deferred, 2⟩
  | name :: args =>
    let w1 := safelyRun w e.Key name args e.runErr e.recovered
    ⟨unlock w1 e.Key e.deferred, 0⟩

/-- Function `main` (lines 126-160). -/
def main (e : Env) (w : World) : Result :=
  match acquire e w with
  | (p, w1) => if p.proceeds = true then guarded e w1 else ⟨w1, 1⟩

/-! ## Concrete runs -/

/-- A store holding nothing. -/
def emptyStore : Store := fun _ => none

/-- A world with the given store and no history. -/
def freshWorld (st : Store) : World := ⟨st, [], []⟩

/-- A release at clock reading `now` with the store reachable. -/
def releaseAt (now : Time) : Release := ⟨true, now, now, true⟩

/-- A release at clock reading `now` whose calls do not reach the store. -/
def releaseDownAt (now : Time) : Release := ⟨false, now, now, false⟩

/-- A run of `echo hi` under key `lock`: every clock reading of the acquisition
is the whole second `start`, every clock reading of a release is the whole
second `finish`, the store is reachable and `cmd.Run()` answers `runErr`. -/
def invocation (start finish : Int) (timeout : Duration) (runErr : Bool) : Env :=
  ⟨"lock", timeout, ["echo", "hi"], timeUnix start, true, true, timeUnix start,
    timeUnix start, true, timeUnix start, runErr, releaseAt (timeUnix finish),
    releaseAt (timeUnix finish)⟩

/-- A run of `echo hi` under key `lock` in which every clock reading is the
whole second `sec`. -/
def runAt (sec : Int) (timeout : Duration) (runErr : Bool) : Env :=
  invocation sec sec timeout runErr

/-- A run of `echo hi` under key `lock` at the whole second `sec` during which
no call reaches the store. -/
def storeDownAt (sec : Int) (timeout : Duration) : Env :=
  ⟨"lock", timeout, ["echo", "hi"], timeUnix sec, false, false, timeUnix sec,
    timeUnix sec, false, timeUnix sec, false, releaseDownAt (timeUnix sec),
    releaseDownAt (timeUnix sec)⟩

/-- A run of `echo hi` under key `lock` at the whole second `sec` in which only
the `Setnx` of line 132 does not reach the store. -/
def setnxDownAt (sec : Int) (timeout : Duration) : Env :=
  ⟨"lock", timeout, ["echo", "hi"], timeUnix sec, false, true, timeUnix sec,
    timeUnix sec, true, timeUnix sec, false, releaseAt (timeUnix sec),
    releaseAt (timeUnix sec)⟩

/-- A run of `echo hi` under key `lock` at the whole second `sec` in which only
the `Get` of line 102 does not reach the store. -/
def getDownAt (sec : Int) (timeout : Duration) : Env :=
  ⟨"lock", timeout, ["echo", "hi"], timeUnix sec, true, false, timeUnix sec,
    timeUnix sec, true, timeUnix sec, false, releaseAt (timeUnix sec),
    releaseAt (timeUnix sec)⟩

/-- A run of `echo hi` under key `lock` at the whole second `sec` in which only
the `Getset` of line 77 does not reach the store. -/
def getsetDownAt (sec : Int) (timeout : Duration) : Env :=
  ⟨"lock", timeout, ["echo", "hi"], timeUnix sec, true, true, timeUnix sec,
    timeUnix sec, false, timeUnix sec, false, releaseAt (timeUnix sec),
    releaseAt (timeUnix sec)⟩

/-- Thirty minutes, the default of the `timeout` flag (line 122). -/
def halfHour : Duration := 30 * 60 * Second

/-- The world after a first run has taken the lock on an empty store at second
2147483000 (2038-01-19 03:03:20 UTC) with the default timeout: the key holds
`2147484801`. -/
def heldPast2038 : World :=
  (acquire (runAt 2147483000 halfHour false) (freshWorld emptyStore)).2

/-- The run of invocation A in the release trace: it starts at second 1000
with a timeout of ten seconds, so its expiry is second 1011, and its child
returns at second 2005. -/
def holderA : Env := invocation 1000 2005 (10 * Second) false

/-- The run of invocation B in the release trace: it starts at second 2000,
after A's expiry, with a timeout of ten seconds, so its expiry is second 2011. -/
def holderB : Env := runAt 2000 (10 * Second) false

/-- The world of the release trace once A has taken the lock on an empty store
and B, later, has taken it over. -/
def afterTakeover : World := (acquire holderB (acquire holderA (freshWorld emptyStore)).2).2

/-! ## Reading decimal text -/

/-- The number the bytes `cs` denote when read as decimal digits after an
accumulated `n`; a byte that is no digit counts as 0. -/
def decValue (cs : List Char) (n : Nat) : Nat :=
  cs.foldl (fun a c => a * 10 + (digitVal c).getD 0) n

/-- Every byte of `cs` is a decimal digit. -/
def AllDigits (cs : List Char) : Prop := ∀ c ∈ cs, (digitVal c).isSome = true

instance instDecidableAllDigits (cs : List Char) : Decidable (AllDigits cs) := by
  unfold AllDigits
  infer_instance

/-- The value `i` forced into the signed range of `bitSize` bits. -/
def clampInt (bitSize : Nat) (i : Int) : Int :=
  if i < -((2 : Int) ^ (bitSize - 1)) then -((2 : Int) ^ (bitSize - 1))
  else if (2 : Int) ^ (bitSize - 1) ≤ i then (2 : Int) ^ (bitSize - 1) - 1
  else i

/-! ## Configuration -/

/-- Type `Config` (lines 18-24). -/
structure Config where
  Key : String
  RedisDb : Int
  RedisAddr : String
  RedisPassword : String
  LockTimeout : Duration

/-- Method `ParseFromEnvironment` (lines 26-37).  `getenv` is `os.Getenv`, which
answers the empty text for a variable that is not set.  Line 30 writes
`RedisDb` when the error of `ParseInt` is not `nil`. -/
def ParseFromEnvironment (conf : Config) (getenv : String → String) : Config :=
  let RedisAddr := getenv "REDISLOCKRUN_ADDR"
  let RedisPassword := getenv "REDISLOCKRUN_PASSWORD"
  let parsed := ParseInt (getenv "REDISLOCKRUN_DB") 8
  let RedisDb := if parsed.2 ≠ none then parsed.1 else conf.RedisDb
  let key := getenv "REDISLOCKRUN_KEY"
  let Key := if 0 < key.length then key else conf.Key
  ⟨Key, RedisDb, RedisAddr, RedisPassword, conf.LockTimeout⟩

/-- The value `&Config{Key: "lock"}` of line 116: every other field is zero. -/
def initialConfig : Config := ⟨"lock", 0, "", "", 0⟩

/-- An environment in which only `REDISLOCKRUN_DB` is set, to `db`. -/
def envWithDb (db : String) : String → String :=
  fun name => if name = "REDISLOCKRUN_DB" then db else ""

/-! ## The acquisition in two steps -/

/-- The way a run leaves lines 132-134 of `main`. -/
inductive Contention
  /-- Line 132 created the key. -/
  | created
  /-- Line 133 got an error: no branch is taken. -/
  | unread
  /-- Line 134 found the lock not expired: line 147, `os.Exit(1)`. -/
  | locked
  /-- Line 134 found the lock expired: the run goes on to the swap of line 137. -/
  | stale
  deriving DecidableEq, Repr

/-- Lines 127-134 of `main`: the `Setnx`, the read and the test of line 134.
Other invocations may act between this step and the swap. -/
def contend (e : Env) (w : World) : Contention × World :=
  let expire := makeExpiryTime e.now0 e.LockTimeout
  match w.Setnx e.setnxUp e.Key (FormatInt (unixSeconds expire)) with
  | ((ok, _), w1) =>
    if ok = true then (Contention.created, w1)
    else
      match getLockExpire w1 e.Key e.getUp e.nowRead with
      | ((timeout, err), w2) =>
        if err = none then
          if After e.now1 timeout = true then (Contention.stale, w2)
          else (Contention.locked, w2)
        else (Contention.unread, w2)

/-- Lines 137-143 of `main`: the swap and what the run makes of its answer. -/
def swap (e : Env) (w : World) : Path × World :=
  let expire := makeExpiryTime e.now0 e.LockTimeout
  match unlockAndLock w e.Key expire e.getsetUp e.now2 with
  | (err2, w3) =>
    if err2 = none then (Path.reacquired, w3) else (Path.lost, w3)

/-! ## More concrete runs -/

/-- A run under key `lock` at the whole second `sec` that is given no command. -/
def noCommandAt (sec : Int) (timeout : Duration) : Env :=
  ⟨"lock", timeout, [], timeUnix sec, true, true, timeUnix sec, timeUnix sec,
    true, timeUnix sec, false, releaseAt (timeUnix sec), releaseAt (timeUnix sec)⟩

/-- A run of `echo hi` under key `lock` in which every clock reading is the
instant `t`, whole second or not. -/
def runAtInstant (t : Time) (timeout : Duration) (runErr : Bool) : Env :=
  ⟨"lock", timeout, ["echo", "hi"], t, true, true, t, t, true, t, runErr,
    releaseAt t, releaseAt t⟩

/-- A world whose key `lock` holds an expiry long past, second 700. -/
def staleWorld : World := freshWorld (emptyStore.set "lock" (FormatInt 700))

/-- The holder of the race: it starts at second 1000 with the default timeout,
so its expiry is second 2801. -/
def raceHolder : Env := runAt 1000 halfHour false

/-- The loser of the race: it starts at second 1000 with a timeout of one
minute, so its expiry is second 1061. -/
def raceLoser : Env := runAt 1000 (60 * Second) false

/-- The world of the race when the loser comes to its swap: the loser has seen
the stale key, then the holder has taken the key over. -/
def raceWorld : World := (acquire raceHolder (contend raceLoser staleWorld).2).2

end RedisLockRun

namespace RedisLockRun

/-! ## Decimal text: writing and reading back -/

theorem digitVal_digitChar (d : Nat) (h : d < 10) : digitVal (digitChar d) = some d := by
  interval_cases d <;> decide

theorem digitVal_le {c : Char} {d : Nat} (h : digitVal c = some d) : d ≤ 9 := by
  unfold digitVal at h
  split at h
  · simp only [Option.some.injEq] at h
    omega
  · simp at h

theorem decValue_nil (n : Nat) : decValue [] n = n := rfl

theorem decValue_cons (c : Char) (cs : List Char) (n : Nat) :
    decValue (c :: cs) n = decValue cs (n * 10 + (digitVal c).getD 0) := rfl

theorem decValue_append (xs ys : List Char) (n : Nat) :
    decValue (xs ++ ys) n = decValue ys (decValue xs n) := by
  simp [decValue, List.foldl_append]

theorem le_decValue (cs : List Char) (n : Nat) : n ≤ decValue cs n := by
  induction cs generalizing n with
  | nil => simp [decValue_nil]
  | cons c cs ih =>
    rw [decValue_cons]
    exact le_trans (by omega) (ih _)

/-- On decimal digits the loop of `ParseUint` returns the number they denote,
or the bound with a range error when that number is above the bound. -/
theorem parseUintLoop_digits (maxVal : Nat) (hmax : maxVal < 2 ^ 64) :
    ∀ (cs : List Char) (n : Nat), AllDigits cs → n ≤ maxVal →
      parseUintLoop maxVal cs n =
        if decValue cs n ≤ maxVal then (decValue cs n, none)
        else (maxVal, some NumError.ErrRange) := by
  intro cs
  induction cs with
  | nil =>
    intro n _ hn
    simp [parseUintLoop, decValue_nil, hn]
  | cons c cs ih =>
    intro n hall hn
    have hc : (digitVal c).isSome = true := hall c (List.mem_cons_self _ _)
    obtain ⟨d, hd⟩ := Option.isSome_iff_exists.mp hc
    have hd9 : d ≤ 9 := digitVal_le hd
    have hrest : AllDigits cs := fun x hx => hall x (List.mem_cons_of_mem _ hx)
    have hmono := le_decValue cs (n * 10 + d)
    norm_num at hmax
    rw [decValue_cons, hd]
    simp only [parseUintLoop, hd, Option.getD_some, cutoff64]
    norm_num
    by_cases h1 : 1844674407370955162 ≤ n
    · rw [if_pos h1, if_neg (by omega)]
    · rw [if_neg h1]
      by_cases h2 : n * 10 + d < 18446744073709551616
      · rw [Nat.mod_eq_of_lt h2]
        by_cases h3 : n * 10 + d < n ∨ maxVal < n * 10 + d
        · rw [if_pos h3, if_neg (by omega)]
        · rw [if_neg h3]
          exact ih _ hrest (by omega)
      · rw [if_pos (by omega), if_neg (by omega)]

theorem formatBits_acc (fuel u : Nat) (acc : List Char) :
    formatBits fuel u acc = formatBits fuel u [] ++ acc := by
  induction fuel generalizing u acc with
  | zero => simp [formatBits]
  | succ fuel ih =>
    simp only [formatBits]
    split
    · rw [ih, ih (u / 10) [digitChar (u % 10)]]
      simp
    · simp

theorem formatBits_allDigits (fuel u : Nat) : AllDigits (formatBits fuel u []) := by
  induction fuel generalizing u with
  | zero =>
    intro c hc
    simp only [formatBits, List.mem_singleton] at hc
    rw [hc, digitVal_digitChar _ (Nat.mod_lt _ (by norm_num))]
    rfl
  | succ fuel ih =>
    intro c hc
    simp only [formatBits] at hc
    split at hc
    · rw [formatBits_acc] at hc
      rcases List.mem_append.mp hc with h | h
      · exact ih _ c h
      · simp only [List.mem_singleton] at h
        rw [h, digitVal_digitChar _ (Nat.mod_lt _ (by norm_num))]
        rfl
    · simp only [List.mem_singleton] at hc
      rw [hc, digitVal_digitChar _ (by omega)]
      rfl

/-- With fuel `u` or more the digit loop writes digits that denote `u`. -/
theorem decValue_formatBits (fuel u : Nat) (h : u ≤ fuel) :
    decValue (formatBits fuel u []) 0 = u := by
  induction fuel generalizing u with
  | zero =>
    have hu : u = 0 := by omega
    subst hu
    decide
  | succ fuel ih =>
    simp only [formatBits]
    split
    · rw [formatBits_acc, decValue_append, ih (u / 10) (by omega), decValue_cons, decValue_nil,
        digitVal_digitChar _ (Nat.mod_lt _ (by norm_num))]
      simp only [Option.getD_some]
      omega
    · rw [decValue_cons, decValue_nil, digitVal_digitChar _ (by omega)]
      simp

theorem formatBits_ne_nil (fuel u : Nat) : formatBits fuel u [] ≠ [] := by
  cases fuel with
  | zero => simp [formatBits]
  | succ fuel =>
    simp only [formatBits]
    split
    · rw [formatBits_acc]
      simp
    · simp

/-- On the digits of `u` the call `ParseUint` returns `u`, or the bound with a
range error when `u` does not fit in `bitSize` bits. -/
theorem ParseUint_formatBits (u bitSize : Nat) (hb : bitSize ≤ 64) :
    ParseUint (formatBits u u []) bitSize =
      if u ≤ 2 ^ bitSize - 1 then (u, none) else (2 ^ bitSize - 1, some NumError.ErrRange) := by
  have hmax : 2 ^ bitSize - 1 < 2 ^ 64 := by
    have := Nat.pow_le_pow_right (by norm_num : 0 < 2) hb
    have : 0 < 2 ^ bitSize := Nat.pow_pos (by norm_num)
    omega
  have hloop := parseUintLoop_digits (2 ^ bitSize - 1) hmax (formatBits u u []) 0
    (formatBits_allDigits u u) (Nat.zero_le _)
  rw [decValue_formatBits u u (le_refl u)] at hloop
  unfold ParseUint
  split
  · rename_i heq
    exact absurd heq (formatBits_ne_nil u u)
  · exact hloop

theorem head_ne_sign {c : Char} {cs : List Char} (h : AllDigits (c :: cs)) :
    ¬ (c = '+' ∨ c = '-') := by
  have hc := h c (List.mem_cons_self _ _)
  rintro (rfl | rfl) <;> exact absurd hc (by decide)

theorem ParseInt_minus (cs : List Char) (bitSize : Nat) :
    ParseInt (String.mk ('-' :: cs)) bitSize =
      if (ParseUint cs bitSize).2 = some NumError.ErrSyntax then (0, (ParseUint cs bitSize).2)
      else if 2 ^ (bitSize - 1) < (ParseUint cs bitSize).1 then
        (-((2 ^ (bitSize - 1) : Nat) : Int), some NumError.ErrRange)
      else (-((ParseUint cs bitSize).1 : Int), none) := by
  simp [ParseInt]

theorem ParseInt_unsigned (d : Char) (ds : List Char) (bitSize : Nat)
    (h : ¬ (d = '+' ∨ d = '-')) :
    ParseInt (String.mk (d :: ds)) bitSize =
      if (ParseUint (d :: ds) bitSize).2 = some NumError.ErrSyntax then
        (0, (ParseUint (d :: ds) bitSize).2)
      else if 2 ^ (bitSize - 1) ≤ (ParseUint (d :: ds) bitSize).1 then
        (((2 ^ (bitSize - 1) : Nat) : Int) - 1, some NumError.ErrRange)
      else (((ParseUint (d :: ds) bitSize).1 : Int), none) := by
  have hd1 : ¬ d = '-' := fun e => h (Or.inr e)
  have hd0 : ¬ d = '+' := fun e => h (Or.inl e)
  simp [ParseInt, hd0, hd1]

/-- The call `ParseInt` on the text that `FormatInt` writes returns the number
itself when it fits in `bitSize` bits, and otherwise the bound of its sign
together with a range error. -/
theorem ParseInt_FormatInt (i : Int) (bitSize : Nat) (h2 : 2 ≤ bitSize) (hb : bitSize ≤ 64) :
    ParseInt (FormatInt i) bitSize =
      (clampInt bitSize i,
        if clampInt bitSize i = i then none else some NumError.ErrRange) := by
  obtain ⟨c, hc⟩ : ∃ c : Nat, 2 ^ (bitSize - 1) = c := ⟨_, rfl⟩
  have hc2 : 2 ^ bitSize = 2 * c := by
    rw [← hc, ← pow_succ']
    congr 1
    omega
  have hcpos : 2 ≤ c := by
    rw [← hc]
    calc 2 = 2 ^ 1 := by norm_num
      _ ≤ 2 ^ (bitSize - 1) := Nat.pow_le_pow_right (by norm_num) (by omega)
  have hci : ((2 : Int) ^ (bitSize - 1)) = (c : Int) := by
    rw [← hc]
    push_cast
    rfl
  unfold clampInt
  rw [hci]
  obtain ⟨u, rfl | rfl⟩ := Int.eq_nat_or_neg i
  · have hU := ParseUint_formatBits u bitSize hb
    rw [hc2] at hU
    have hall := formatBits_allDigits u u
    obtain ⟨d, ds, hds⟩ := List.exists_cons_of_ne_nil (formatBits_ne_nil u u)
    rw [hds] at hall hU
    have hF : FormatInt (u : Int) = String.mk (d :: ds) := by
      unfold FormatInt
      rw [if_neg (by omega), Int.natAbs_ofNat, hds]
    rw [hF, ParseInt_unsigned d ds bitSize (head_ne_sign hall), hU, hc]
    by_cases hfit : u ≤ 2 * c - 1
    · rw [if_pos hfit]
      simp only [reduceCtorEq, if_false]
      by_cases hcut : c ≤ u
      · rw [if_pos hcut, if_neg (by omega), if_pos (by omega), if_neg (by omega)]
      · rw [if_neg hcut, if_neg (by omega), if_neg (by omega), if_pos rfl]
    · rw [if_neg hfit]
      simp only [Option.some.injEq, reduceCtorEq, if_false]
      rw [if_pos (by omega), if_neg (by omega), if_pos (by omega), if_neg (by omega)]
  · by_cases hz : u = 0
    · subst hz
      have hF : FormatInt (-((0 : Nat) : Int)) = "0" := by decide
      rw [hF]
      have hP : ParseInt "0" bitSize = (0, none) := by
        have hm : ¬ (2 ^ bitSize - 1 < 0) := by omega
        have hne : ¬ (2 ^ (bitSize - 1) ≤ 0) := by omega
        simp [ParseInt, ParseUint, parseUintLoop, digitVal, cutoff64, hne]
      rw [hP, if_neg (by omega), if_neg (by omega), if_pos rfl]
      rfl
    · have hU := ParseUint_formatBits u bitSize hb
      rw [hc2] at hU
      have hF : FormatInt (-(u : Int)) = String.mk ('-' :: formatBits u u []) := by
        unfold FormatInt
        rw [if_pos (by omega), Int.natAbs_neg, Int.natAbs_ofNat]
      rw [hF, ParseInt_minus, hU, hc]
      by_cases hfit : u ≤ 2 * c - 1
      · rw [if_pos hfit]
        simp only [reduceCtorEq, if_false]
        by_cases hcut : c < u
        · rw [if_pos hcut, if_pos (by omega), if_neg (by omega)]
        · rw [if_neg hcut, if_neg (by omega), if_neg (by omega), if_pos rfl]
      · rw [if_neg hfit]
        simp only [Option.some.injEq, reduceCtorEq, if_false]
        rw [if_pos (by omega), if_pos (by omega), if_neg (by omega)]

/-- Read with 32 bits, the text of `i` gives `i` forced into the 32-bit range. -/
theorem ParseInt32_FormatInt (i : Int) : (ParseInt (FormatInt i) 32).1 = clampInt 32 i := by
  rw [ParseInt_FormatInt i 32 (by norm_num) (by norm_num)]

theorem clampInt32_eq (i : Int) :
    clampInt 32 i =
      if i < -2147483648 then -2147483648 else if 2147483648 ≤ i then 2147483647 else i := by
  unfold clampInt
  norm_num

theorem clampInt32_of_fits (i : Int) (h1 : -2147483648 ≤ i) (h2 : i < 2147483648) :
    clampInt 32 i = i := by
  rw [clampInt32_eq, if_neg (by omega), if_neg (by omega)]

end RedisLockRun

namespace RedisLockRun

/-! ## One call at a time -/

theorem lt_add_one_second (a : Int) : a < a + 1 * 1000000000 := by
  omega

theorem timeUnix_le {a b : Int} (h : a ≤ b) : timeUnix a ≤ timeUnix b := by
  show (a * 1000000000 : Int) ≤ b * 1000000000
  omega

theorem timeUnix_lt {a b : Int} (h : a < b) : timeUnix a < timeUnix b := by
  show (a * 1000000000 : Int) < b * 1000000000
  omega

theorem le_clampInt32 (i : Int) (h : i < 2147483648) : i ≤ clampInt 32 i := by
  rw [clampInt32_eq]
  split_ifs <;> omega

theorem clampInt32_le (i : Int) (h : -2147483648 ≤ i) : clampInt 32 i ≤ i := by
  rw [clampInt32_eq]
  split_ifs <;> omega

/-- A read of a key that exists: the stored bytes decoded, no error, and one
`Get` on the wire. -/
theorem getLockExpire_found (w : World) (key v : String) (now : Time)
    (h : w.store key = some v) :
    getLockExpire w key true now =
      ((timeUnix (ParseInt v 32).1, none), ⟨w.store, w.calls ++ [Call.Get key], w.spawned⟩) := by
  simp [getLockExpire, World.Get, h]

/-- A read that does not reach the store: an error, and the clock of line 112. -/
theorem getLockExpire_down (w : World) (key : String) (now : Time) :
    getLockExpire w key false now =
      ((now, some "store unavailable"), ⟨w.store, w.calls ++ [Call.Get key], w.spawned⟩) := by
  simp [getLockExpire, World.Get]

/-- A read of a key that does not exist: an error. -/
theorem getLockExpire_missing (w : World) (key : String) (now : Time)
    (h : w.store key = none) :
    getLockExpire w key true now =
      ((now, some "key does not exist"), ⟨w.store, w.calls ++ [Call.Get key], w.spawned⟩) := by
  simp [getLockExpire, World.Get, h]

/-- A release never touches the list of started children. -/
theorem unlock_spawned (w : World) (key : String) (r : Release) :
    (unlock w key r).spawned = w.spawned := by
  unfold unlock getLockExpire World.Get World.Del
  cases r.getUp <;> cases r.delUp <;> cases w.store key <;> simp <;> split_ifs <;> rfl

/-- A release of a key that exists, with the read reaching the store: the key is
deleted exactly when the clock is strictly before the decoded instant. -/
theorem unlock_found (w : World) (key v : String) (r : Release)
    (h : w.store key = some v) (hup : r.getUp = true) :
    unlock w key r =
      if r.now < timeUnix (ParseInt v 32).1 then
        (World.Del ⟨w.store, w.calls ++ [Call.Get key], w.spawned⟩ r.delUp key).2
      else ⟨w.store, w.calls ++ [Call.Get key], w.spawned⟩ := by
  unfold unlock
  rw [hup, getLockExpire_found w key v r.nowRead h]
  simp [Before]

/-- A release of a key that does not exist sends one `Get` and nothing else. -/
theorem unlock_missing (w : World) (key : String) (r : Release)
    (h : w.store key = none) :
    unlock w key r = ⟨w.store, w.calls ++ [Call.Get key], w.spawned⟩ := by
  unfold unlock
  cases hup : r.getUp
  · rw [getLockExpire_down]
    simp
  · rw [getLockExpire_missing w key r.nowRead h]
    simp

/-- A key just written holds what was written. -/
theorem Store.set_same (st : Store) (key val : String) : st.set key val key = some val := by
  simp [Store.set]

theorem Store.del_same (st : Store) (key : String) : st.del key key = none := by
  simp [Store.del]

/-- On a key that exists the `Setnx` of line 132 answers `false` and changes
nothing, whether it reaches the store or not. -/
theorem Setnx_present (w : World) (up : Bool) (key val v : String)
    (h : w.store key = some v) :
    (w.Setnx up key val).1.1 = false ∧
      (w.Setnx up key val).2 = ⟨w.store, w.calls ++ [Call.Setnx key val], w.spawned⟩ := by
  cases up <;> simp [World.Setnx, h]

/-- The acquisition never starts a child. -/
theorem acquire_spawned (e : Env) (w : World) : (acquire e w).2.spawned = w.spawned := by
  unfold acquire unlockAndLock getLockExpire World.Setnx World.Get World.Getset
  cases hS : w.store e.Key <;> cases e.setnxUp <;> cases e.getUp <;> cases e.getsetUp <;>
    simp [hS] <;> split_ifs <;> rfl

/-- A run that finds the key present, reads it, and whose clock at line 134 is
not after the decoded instant leaves by line 147: two commands were sent, the
store is as it was. -/
theorem acquire_locked (e : Env) (w : World) (v : String)
    (h : w.store e.Key = some v) (hup : e.getUp = true)
    (hnow : e.now1 ≤ timeUnix (ParseInt v 32).1) :
    acquire e w =
      (Path.locked,
        ⟨w.store,
          w.calls ++ [Call.Setnx e.Key
            (FormatInt (unixSeconds (makeExpiryTime e.now0 e.LockTimeout)))] ++ [Call.Get e.Key],
          w.spawned⟩) := by
  have hafter : After e.now1 (timeUnix (ParseInt v 32).1) = false := by
    simp only [After, decide_eq_false_iff_not, not_lt]
    exact hnow
  unfold acquire
  cases e.setnxUp <;> simp [World.Setnx, h, hup, getLockExpire, World.Get, hafter]

/-- A run that finds the key present, reads it, and whose clocks at lines 134
and 85 are after, respectively not before, the decoded instant leaves by line
138 with its own expiry written under the key. -/
theorem acquire_reacquired (e : Env) (w : World) (v : String)
    (h : w.store e.Key = some v) (hup : e.getUp = true) (hswap : e.getsetUp = true)
    (hnow1 : timeUnix (ParseInt v 32).1 < e.now1)
    (hnow2 : timeUnix (ParseInt v 32).1 ≤ e.now2) :
    acquire e w =
      (Path.reacquired,
        ⟨w.store.set e.Key (FormatInt (unixSeconds (makeExpiryTime e.now0 e.LockTimeout))),
          w.calls ++ [Call.Setnx e.Key
            (FormatInt (unixSeconds (makeExpiryTime e.now0 e.LockTimeout)))] ++ [Call.Get e.Key]
            ++ [Call.Getset e.Key
              (FormatInt (unixSeconds (makeExpiryTime e.now0 e.LockTimeout)))],
          w.spawned⟩) := by
  have hafter : After e.now1 (timeUnix (ParseInt v 32).1) = true := by
    simp only [After, decide_eq_true_eq]
    exact hnow1
  have hbefore : Before e.now2 (timeUnix (ParseInt v 32).1) = false := by
    simp only [Before, decide_eq_false_iff_not, not_lt]
    exact hnow2
  unfold acquire
  cases e.setnxUp <;>
    simp [World.Setnx, h, hup, hswap, getLockExpire, World.Get, hafter, unlockAndLock,
      World.Getset, hbefore]

/-- A run that leaves the acquisition by line 132 or by line 138 has written
its own expiry, in whole seconds, under the key. -/
theorem acquire_stores (e : Env) (w : World)
    (h : (acquire e w).1 = Path.created ∨ (acquire e w).1 = Path.reacquired) :
    (acquire e w).2.store e.Key =
      some (FormatInt (unixSeconds (makeExpiryTime e.now0 e.LockTimeout))) := by
  revert h
  unfold acquire unlockAndLock getLockExpire World.Setnx World.Get World.Getset
  cases hS : w.store e.Key <;> cases e.setnxUp <;> cases e.getUp <;> cases e.getsetUp <;>
    simp [hS, Store.set] <;> split_ifs <;> simp [Store.set]

/-! ## The whole run -/

theorem safelyRun_spawned (w : World) (key name : String) (args : List String)
    (runErr : Bool) (r : Release) :
    (safelyRun w key name args runErr r).spawned = w.spawned ++ [name :: args] := by
  unfold safelyRun
  cases runErr
  · simp
  · simp [unlock_spawned]

/-- A run that goes on to line 152 with a command starts that command, once. -/
theorem main_spawned_of_proceeds (e : Env) (w : World) (name : String) (args : List String)
    (hcmd : e.cmdArgs = name :: args) (h : (acquire e w).1.proceeds = true) :
    (main e w).world.spawned = w.spawned ++ [name :: args] := by
  unfold main
  simp only [h, if_true]
  unfold guarded
  rw [hcmd]
  simp only [unlock_spawned, safelyRun_spawned, acquire_spawned]

/-- A run that does not go on to line 152 ends in the world its acquisition
left, with status 1. -/
theorem main_of_denied (e : Env) (w : World) (h : (acquire e w).1.proceeds = false) :
    main e w = ⟨(acquire e w).2, 1⟩ := by
  unfold main
  simp [h]

/-- Within the 32-bit range of seconds mutual exclusion holds: when a first run
has taken the lock, by line 132 or by line 138, with an expiry below `2^31`
seconds, a second run on the same key that reads the key and whose clock at
line 134 is not after that expiry leaves by line 147, exits with status 1 and
starts no child. -/
theorem mutual_exclusion_within_int32 (e1 e2 : Env) (w : World)
    (hkey : e2.Key = e1.Key)
    (hacq : (acquire e1 w).1 = Path.created ∨ (acquire e1 w).1 = Path.reacquired)
    (hfit : unixSeconds (makeExpiryTime e1.now0 e1.LockTimeout) < 2147483648)
    (hup : e2.getUp = true)
    (hnow : e2.now1 ≤ timeUnix (unixSeconds (makeExpiryTime e1.now0 e1.LockTimeout))) :
    (acquire e2 (acquire e1 w).2).1 = Path.locked ∧
      (main e2 (acquire e1 w).2).exit = 1 ∧
      (main e2 (acquire e1 w).2).world.spawned = w.spawned := by
  have hst := acquire_stores e1 w hacq
  rw [← hkey] at hst
  have hlock := acquire_locked e2 (acquire e1 w).2 _ hst hup (by
    rw [ParseInt32_FormatInt]
    exact le_trans hnow (timeUnix_le (le_clampInt32 _ hfit)))
  have hden : (acquire e2 (acquire e1 w).2).1.proceeds = false := by
    rw [hlock]
    rfl
  refine ⟨by rw [hlock], ?_, ?_⟩
  · rw [main_of_denied _ _ hden]
  · rw [main_of_denied _ _ hden]
    simp only [acquire_spawned]

/-- Claim C1, which the code breaks.  A first run takes the lock on an empty
store at second 2147483000 and stores the expiry 2147484801.  A second run
starts at second 2147484000, before that expiry, and nothing was released in
between.  Line 105 reads the stored text with 32 bits, gets 2147483647 and takes
the lock for expired; line 83 does the same.  The second run reaches line 138
and starts its command. -/
theorem mutual_exclusion_lost_past_int32 :
    (acquire (runAt 2147483000 halfHour false) (freshWorld emptyStore)).1 = Path.created ∧
      heldPast2038.store "lock" = some (FormatInt 2147484801) ∧
      timeUnix 2147484000 ≤ timeUnix 2147484801 ∧
      (acquire (runAt 2147484000 halfHour false) heldPast2038).1 = Path.reacquired ∧
      (main (runAt 2147484000 halfHour false) heldPast2038).world.spawned =
        [["echo", "hi"]] := by
  decide

/-- A run whose read of the key fails goes on as if it held the lock: it starts
the command and ends with status 0. -/
theorem unread_runs_child (e : Env) (w : World) (name : String) (args : List String)
    (hcmd : e.cmdArgs = name :: args) (h : (acquire e w).1 = Path.unread) :
    (main e w).world.spawned = w.spawned ++ [name :: args] ∧ (main e w).exit = 0 := by
  have hp : (acquire e w).1.proceeds = true := by
    rw [h]
    rfl
  refine ⟨main_spawned_of_proceeds e w name args hcmd hp, ?_⟩
  unfold main
  simp only [hp, if_true]
  unfold guarded
  rw [hcmd]

/-- Claim C2, which the code breaks.  Three runs in which a store operation
fails during the acquisition, each handing the child to `cmd.Run()`: no call
reaches the store; the `Setnx` fails and the read reports the key missing; the
key is held until second 5000, the clock reads second 1000 and the read of the
expiry fails (that run ends by deleting the holder's key).  A fourth run, in
which it is the `Getset` of line 77 that fails, does abort: status 1, no
child. -/
theorem store_failure_runs_child :
    ((acquire (storeDownAt 1000 halfHour) (freshWorld emptyStore)).1 = Path.unread ∧
        (main (storeDownAt 1000 halfHour) (freshWorld emptyStore)).world.spawned =
          [["echo", "hi"]] ∧
        (main (storeDownAt 1000 halfHour) (freshWorld emptyStore)).exit = 0) ∧
      ((acquire (setnxDownAt 1000 halfHour) (freshWorld emptyStore)).1 = Path.unread ∧
        (main (setnxDownAt 1000 halfHour) (freshWorld emptyStore)).world.spawned =
          [["echo", "hi"]] ∧
        (main (setnxDownAt 1000 halfHour) (freshWorld emptyStore)).exit = 0) ∧
      ((acquire (getDownAt 1000 halfHour) (freshWorld (emptyStore.set "lock" "5000"))).1 =
          Path.unread ∧
        (main (getDownAt 1000 halfHour)
            (freshWorld (emptyStore.set "lock" "5000"))).world.spawned = [["echo", "hi"]] ∧
        (main (getDownAt 1000 halfHour)
            (freshWorld (emptyStore.set "lock" "5000"))).exit = 0 ∧
        (main (getDownAt 1000 halfHour)
            (freshWorld (emptyStore.set "lock" "5000"))).world.store "lock" = none) ∧
      ((acquire (getsetDownAt 1000 halfHour) (freshWorld (emptyStore.set "lock" "700"))).1 =
          Path.lost ∧
        (main (getsetDownAt 1000 halfHour)
            (freshWorld (emptyStore.set "lock" "700"))).world.spawned = [] ∧
        (main (getsetDownAt 1000 halfHour)
            (freshWorld (emptyStore.set "lock" "700"))).exit = 1) := by
  decide

/-- Claim C3, as the code has it.  With a command given, the exit status of the
process is 0 when the acquisition lets the run go on to line 152 and 1 when it
does not; what `cmd.Run()` answered plays no part, since `safelyRun` recovers
from its own panic and `main` returns normally. -/
theorem main_exit (e : Env) (w : World) (hcmd : e.cmdArgs ≠ []) :
    (main e w).exit = if (acquire e w).1.proceeds = true then 0 else 1 := by
  unfold main
  by_cases hp : (acquire e w).1.proceeds = true
  · simp only [hp, if_true]
    unfold guarded
    cases hc : e.cmdArgs with
    | nil => exact absurd hc hcmd
    | cons name args => rfl
  · simp [hp]

/-- A run in which the child fails after the lock was taken: its exit status. -/
theorem main_exit_witness :
    (runAt 1000 halfHour true).cmdArgs ≠ [] ∧
      (main (runAt 1000 halfHour true) (freshWorld emptyStore)).exit =
        if (acquire (runAt 1000 halfHour true) (freshWorld emptyStore)).1.proceeds = true
        then 0 else 1 :=
  ⟨by decide, main_exit (runAt 1000 halfHour true) (freshWorld emptyStore) (by decide)⟩

/-- Claim C3 as stated fails: the run takes the lock on an empty store, the
child fails (`cmd.Run()` returns an error), the key is released, and the exit
status of the process is 0. -/
theorem child_failure_exits_zero :
    (acquire (runAt 1000 halfHour true) (freshWorld emptyStore)).1 = Path.created ∧
      (runAt 1000 halfHour true).runErr = true ∧
      (main (runAt 1000 halfHour true) (freshWorld emptyStore)).world.spawned =
        [["echo", "hi"]] ∧
      (main (runAt 1000 halfHour true) (freshWorld emptyStore)).exit = 0 := by
  decide

/-- Claim C9.  The expiry is the clock reading plus the timeout plus one second
of 1000000000 nanoseconds, and so lies strictly after the clock reading plus
the timeout, for every timeout. -/
theorem makeExpiryTime_eq (now : Time) (LockTimeout : Duration) :
    makeExpiryTime now LockTimeout = now + LockTimeout + Second ∧
      Second = 1000000000 ∧
      now + LockTimeout < makeExpiryTime now LockTimeout := by
  refine ⟨?_, rfl, ?_⟩
  · simp [makeExpiryTime, Add]
  · exact lt_add_one_second (now + LockTimeout)

/-! ## Release -/

/-- Within the 32-bit range a release leaves an expired key alone: when the key
holds the text of an expiry not below `-2^31` seconds and that expiry is at or
before the clock of line 67, `unlock` sends its `Get` and nothing else, and the
store is as it was. -/
theorem unlock_keeps_expired (w : World) (key : String) (r : Release) (i : Int)
    (hkey : w.store key = some (FormatInt i)) (hlo : -2147483648 ≤ i)
    (hnow : timeUnix i ≤ r.now) :
    unlock w key r = ⟨w.store, w.calls ++ [Call.Get key], w.spawned⟩ := by
  cases hup : r.getUp
  · unfold unlock
    rw [hup, getLockExpire_down]
    simp
  · rw [unlock_found w key _ r hkey hup, ParseInt32_FormatInt, if_neg]
    exact not_lt.mpr (le_trans (timeUnix_le (clampInt32_le i hlo)) hnow)

/-- Within the 32-bit range a release deletes a key that is not expired: when
the key holds the text of an expiry within the 32-bit range that is strictly
after the clock of line 67 and both calls reach the store, `unlock` sends `Get`
and `Del` and the key is gone. -/
theorem unlock_deletes_unexpired (w : World) (key : String) (r : Release) (i : Int)
    (hkey : w.store key = some (FormatInt i)) (hlo : -2147483648 ≤ i) (hhi : i < 2147483648)
    (hget : r.getUp = true) (hdel : r.delUp = true) (hnow : r.now < timeUnix i) :
    unlock w key r =
      ⟨w.store.del key, w.calls ++ [Call.Get key] ++ [Call.Del key], w.spawned⟩ := by
  rw [unlock_found w key _ r hkey hget, ParseInt32_FormatInt, clampInt32_of_fits i hlo hhi,
    if_pos hnow, hdel]
  simp [World.Del]

/-- Claim C4.  The key holds the decimal text of an expiry and the clock of
line 67 is not before second `-2^31` (1901-12-13), as every reading of a real
clock is.  If the expiry is at or before the clock, `unlock` sends its `Get`
and nothing else, and the store is as it was.  So when `unlock` did send
something more, or the key is gone afterwards, the stored expiry is strictly
after the clock. -/
theorem unlock_deletes_only_unexpired (w : World) (key : String) (r : Release) (i : Int)
    (hkey : w.store key = some (FormatInt i))
    (hclock : timeUnix (-2147483648) ≤ r.now) :
    (timeUnix i ≤ r.now →
        unlock w key r = ⟨w.store, w.calls ++ [Call.Get key], w.spawned⟩) ∧
      ((unlock w key r).calls ≠ w.calls ++ [Call.Get key] → r.now < timeUnix i) ∧
      ((unlock w key r).store key = none → r.now < timeUnix i) := by
  have hkeep : timeUnix i ≤ r.now →
      unlock w key r = ⟨w.store, w.calls ++ [Call.Get key], w.spawned⟩ := by
    intro hnow
    by_cases hlo : -2147483648 ≤ i
    · exact unlock_keeps_expired w key r i hkey hlo hnow
    · cases hup : r.getUp
      · unfold unlock
        rw [hup, getLockExpire_down]
        simp
      · have hc : clampInt 32 i = -2147483648 := by
          rw [clampInt32_eq, if_pos (by omega)]
        rw [unlock_found w key _ r hkey hup, ParseInt32_FormatInt, hc, if_neg]
        exact not_lt.mpr hclock
  refine ⟨hkeep, ?_, ?_⟩
  · intro hsent
    by_contra hnot
    exact hsent (by rw [hkeep (not_lt.mp hnot)])
  · intro hgone
    by_contra hnot
    rw [hkeep (not_lt.mp hnot)] at hgone
    rw [hkey] at hgone
    exact absurd hgone (by simp)

/-- Two releases at second 1000: one finds the expired expiry 900 under the key
and keeps it, the other finds the expiry 5000 and deletes the key. -/
theorem unlock_deletes_only_unexpired_witness :
    (emptyStore.set "lock" (FormatInt 900)) "lock" = some (FormatInt 900) ∧
      timeUnix (-2147483648) ≤ (releaseAt (timeUnix 1000)).now ∧
      timeUnix 900 ≤ (releaseAt (timeUnix 1000)).now ∧
      unlock (freshWorld (emptyStore.set "lock" (FormatInt 900))) "lock"
          (releaseAt (timeUnix 1000)) =
        ⟨(freshWorld (emptyStore.set "lock" (FormatInt 900))).store,
          (freshWorld (emptyStore.set "lock" (FormatInt 900))).calls ++ [Call.Get "lock"],
          (freshWorld (emptyStore.set "lock" (FormatInt 900))).spawned⟩ ∧
      (unlock (freshWorld (emptyStore.set "lock" (FormatInt 5000))) "lock"
          (releaseAt (timeUnix 1000))).store "lock" = none ∧
      (releaseAt (timeUnix 1000)).now < timeUnix 5000 :=
  ⟨by decide, by decide, by decide,
    (unlock_deletes_only_unexpired (freshWorld (emptyStore.set "lock" (FormatInt 900)))
      "lock" (releaseAt (timeUnix 1000)) 900 (by decide) (by decide)).1 (by decide),
    by decide,
    (unlock_deletes_only_unexpired (freshWorld (emptyStore.set "lock" (FormatInt 5000)))
      "lock" (releaseAt (timeUnix 1000)) 5000 (by decide) (by decide)).2.2 (by decide)⟩

/-- Claim C5, as the code has it.  After A's acquisition another invocation B
takes the same key, by line 132 or line 138, with an expiry within the 32-bit
range.  A release by A whose calls reach the store then deletes the key when
A's clock at line 67 is strictly before B's expiry, and leaves B's value in
place otherwise: `unlock` looks at the stored expiry only, not at who wrote it.
The same holds for the whole of A's lines 152-160 when A's child succeeds. -/
theorem unlock_after_takeover (eA eB : Env) (w : World) (r : Release)
    (hkey : eB.Key = eA.Key)
    (hB : (acquire eB (acquire eA w).2).1 = Path.created ∨
      (acquire eB (acquire eA w).2).1 = Path.reacquired)
    (hlo : -2147483648 ≤ unixSeconds (makeExpiryTime eB.now0 eB.LockTimeout))
    (hhi : unixSeconds (makeExpiryTime eB.now0 eB.LockTimeout) < 2147483648)
    (hget : r.getUp = true) (hdel : r.delUp = true) :
    (unlock (acquire eB (acquire eA w).2).2 eA.Key r).store eA.Key =
        (if r.now < timeUnix (unixSeconds (makeExpiryTime eB.now0 eB.LockTimeout)) then none
          else some (FormatInt (unixSeconds (makeExpiryTime eB.now0 eB.LockTimeout)))) ∧
      (eA.cmdArgs ≠ [] → eA.runErr = false → eA.deferred = r →
        (guarded eA (acquire eB (acquire eA w).2).2).world.store eA.Key =
          (if r.now < timeUnix (unixSeconds (makeExpiryTime eB.now0 eB.LockTimeout)) then none
            else some (FormatInt (unixSeconds (makeExpiryTime eB.now0 eB.LockTimeout))))) := by
  have hst := acquire_stores eB (acquire eA w).2 hB
  rw [hkey] at hst
  have hone : ∀ w2 : World,
      w2.store eA.Key = some (FormatInt (unixSeconds (makeExpiryTime eB.now0 eB.LockTimeout))) →
      (unlock w2 eA.Key r).store eA.Key =
        (if r.now < timeUnix (unixSeconds (makeExpiryTime eB.now0 eB.LockTimeout)) then none
          else some (FormatInt (unixSeconds (makeExpiryTime eB.now0 eB.LockTimeout)))) := by
    intro w2 h2
    by_cases hnow : r.now < timeUnix (unixSeconds (makeExpiryTime eB.now0 eB.LockTimeout))
    · rw [unlock_deletes_unexpired w2 eA.Key r _ h2 hlo hhi hget hdel hnow, if_pos hnow]
      exact Store.del_same _ _
    · rw [unlock_keeps_expired w2 eA.Key r _ h2 hlo (not_lt.mp hnow), if_neg hnow]
      exact h2
  refine ⟨hone _ hst, ?_⟩
  intro hcmd herr hr
  unfold guarded
  cases hc : eA.cmdArgs with
  | nil => exact absurd hc hcmd
  | cons name args =>
    simp only [safelyRun, herr, hr]
    exact hone _ hst

/-- The release trace at concrete instants: A starts at second 1000, B takes the
key over at second 2000, A releases at second 2005. -/
theorem unlock_after_takeover_witness :
    (acquire holderB (acquire holderA (freshWorld emptyStore)).2).1 = Path.reacquired ∧
      (unlock (acquire holderB (acquire holderA (freshWorld emptyStore)).2).2 holderA.Key
          (releaseAt (timeUnix 2005))).store holderA.Key =
        (if (releaseAt (timeUnix 2005)).now <
            timeUnix (unixSeconds (makeExpiryTime holderB.now0 holderB.LockTimeout)) then none
          else some (FormatInt (unixSeconds (makeExpiryTime holderB.now0 holderB.LockTimeout)))) ∧
      (guarded holderA (acquire holderB (acquire holderA (freshWorld emptyStore)).2).2).world.store
          holderA.Key =
        (if (releaseAt (timeUnix 2005)).now <
            timeUnix (unixSeconds (makeExpiryTime holderB.now0 holderB.LockTimeout)) then none
          else some (FormatInt (unixSeconds (makeExpiryTime holderB.now0 holderB.LockTimeout)))) :=
  ⟨by decide,
    (unlock_after_takeover holderA holderB (freshWorld emptyStore) (releaseAt (timeUnix 2005))
      rfl (Or.inr (by decide)) (by decide) (by decide) rfl rfl).1,
    (unlock_after_takeover holderA holderB (freshWorld emptyStore) (releaseAt (timeUnix 2005))
      rfl (Or.inr (by decide)) (by decide) (by decide) rfl rfl).2 (by decide) rfl rfl⟩

/-- Claim C5 as stated fails.  A takes the lock at second 1000 with expiry 1011;
at second 2000, after that expiry, B takes the key over and stores the expiry
2011; A's child returns at second 2005, while B's expiry is still in the
future.  A's release deletes B's key, on the path where the child succeeded
and on the path where it failed. -/
theorem release_deletes_other_holders_key :
    (acquire holderA (freshWorld emptyStore)).1 = Path.created ∧
      (acquire holderA (freshWorld emptyStore)).2.store "lock" = some (FormatInt 1011) ∧
      timeUnix 1011 < holderB.now1 ∧
      (acquire holderB (acquire holderA (freshWorld emptyStore)).2).1 = Path.reacquired ∧
      afterTakeover.store "lock" = some (FormatInt 2011) ∧
      holderA.deferred.now < timeUnix 2011 ∧
      (guarded holderA afterTakeover).world.store "lock" = none ∧
      (guarded (invocation 1000 2005 (10 * Second) true) afterTakeover).world.store "lock" =
        none := by
  decide

/-! ## The swap of `unlockAndLock` -/

/-- Claim C6, as the code has it.  When the previous value is the text of an
instant within the 32-bit range of seconds and the `Getset` reaches the store,
`unlockAndLock` answers the error `Locked` exactly when the clock of line 85 is
strictly before that instant; when the instant is equal to the clock or before
it the answer is `nil`.  Either way the key now holds the caller's expiry. -/
theorem unlockAndLock_verdict (w : World) (key : String) (expire now : Time) (i : Int)
    (hprev : w.store key = some (FormatInt i))
    (hlo : -2147483648 ≤ i) (hhi : i < 2147483648) :
    (unlockAndLock w key expire true now).1 =
        (if now < timeUnix i then some "Locked" else none) ∧
      (unlockAndLock w key expire true now).2.store key =
        some (FormatInt (unixSeconds expire)) := by
  have hp : (ParseInt (FormatInt i) 32).1 = i := by
    rw [ParseInt32_FormatInt, clampInt32_of_fits i hlo hhi]
  by_cases hnow : now < timeUnix i
  · simp [unlockAndLock, World.Getset, hprev, hp, Before, hnow, Store.set]
  · simp [unlockAndLock, World.Getset, hprev, hp, Before, hnow, Store.set]

/-- A swap at the very instant of the previous expiry. -/
theorem unlockAndLock_verdict_witness :
    (emptyStore.set "lock" (FormatInt 100)) "lock" = some (FormatInt 100) ∧
      ((unlockAndLock (freshWorld (emptyStore.set "lock" (FormatInt 100))) "lock"
          (timeUnix 500) true (timeUnix 100)).1 =
          (if timeUnix 100 < timeUnix 100 then some "Locked" else none) ∧
        (unlockAndLock (freshWorld (emptyStore.set "lock" (FormatInt 100))) "lock"
          (timeUnix 500) true (timeUnix 100)).2.store "lock" =
          some (FormatInt (unixSeconds (timeUnix 500)))) :=
  ⟨by decide,
    unlockAndLock_verdict (freshWorld (emptyStore.set "lock" (FormatInt 100))) "lock"
      (timeUnix 500) (timeUnix 100) 100 (by decide) (by decide) (by decide)⟩

/-- Claim C6 as stated fails.  With the previous value equal to the clock
(second 100) `unlockAndLock` answers `nil`, that is Acquired, where the claim
has Denied.  With the previous value 3000000000 s, after the clock at
2500000000 s, it answers `nil` as well, line 83 reading the text with 32 bits. -/
theorem unlockAndLock_acquires_at_equal_instant :
    (unlockAndLock (freshWorld (emptyStore.set "lock" (FormatInt 100))) "lock"
        (timeUnix 500) true (timeUnix 100)).1 = none ∧
      (timeUnix 2500000000 < timeUnix 3000000000 ∧
        (unlockAndLock (freshWorld (emptyStore.set "lock" (FormatInt 3000000000))) "lock"
          (timeUnix 2600000000) true (timeUnix 2500000000)).1 = none) := by
  decide

/-! ## Values that are no valid expiry -/

/-- What `ParseInt` returns next to an error, with 32 bits: 0 with a syntax
error, a bound of the 32-bit range with a range error. -/
theorem ParseInt_error_value (s : String) (h : (ParseInt s 32).2 ≠ none) :
    ((ParseInt s 32).2 = some NumError.ErrSyntax ∧ (ParseInt s 32).1 = 0) ∨
      ((ParseInt s 32).2 = some NumError.ErrRange ∧
        ((ParseInt s 32).1 = 2147483647 ∨ (ParseInt s 32).1 = -2147483648)) := by
  revert h
  unfold ParseInt
  split
  · intro _
    exact Or.inl ⟨rfl, rfl⟩
  · rename_i c cs _
    simp only
    generalize ParseUint (if c = '+' ∨ c = '-' then cs else c :: cs) 32 = r
    generalize (decide (c = '-')) = neg
    by_cases h1 : r.2 = some NumError.ErrSyntax
    · intro _
      rw [if_pos h1]
      exact Or.inl ⟨h1, rfl⟩
    · rw [if_neg h1]
      by_cases h2 : neg = false ∧ 2 ^ (32 - 1) ≤ r.1
      · intro _
        rw [if_pos h2]
        refine Or.inr ⟨rfl, Or.inl ?_⟩
        norm_num
      · rw [if_neg h2]
        by_cases h3 : neg = true ∧ 2 ^ (32 - 1) < r.1
        · intro _
          rw [if_pos h3]
          refine Or.inr ⟨rfl, Or.inr ?_⟩
          norm_num
        · rw [if_neg h3]
          intro h
          exact absurd rfl h

/-- Claim C7, as the code has it.  When the key holds a value on which
`ParseInt` reports a syntax error (empty text, text that is no number), reading
the expiry reports no error: `getLockExpire` returns the epoch, second 0.  The
run treats the epoch as the stored expiry: with the store reachable and its
clocks after the epoch it takes the lock by line 138 and, given a command,
starts the child. -/
theorem unparsable_text_read_as_epoch (e : Env) (w : World) (v : String)
    (hv : w.store e.Key = some v)
    (hbad : (ParseInt v 32).2 = some NumError.ErrSyntax) :
    (getLockExpire w e.Key true e.nowRead).1 = (timeUnix 0, none) ∧
      (e.getUp = true → e.getsetUp = true → timeUnix 0 < e.now1 → timeUnix 0 ≤ e.now2 →
        (acquire e w).1 = Path.reacquired ∧
          ∀ name args, e.cmdArgs = name :: args →
            (main e w).world.spawned = w.spawned ++ [name :: args]) := by
  have hzero : (ParseInt v 32).1 = 0 := by
    rcases ParseInt_error_value v (by rw [hbad]; exact Option.some_ne_none _) with h | h
    · exact h.2
    · rw [hbad] at h
      exact absurd h.1 (by decide)
  refine ⟨?_, ?_⟩
  · rw [getLockExpire_found w e.Key v e.nowRead hv, hzero]
  · intro hup hswap h1 h2
    have hacq := acquire_reacquired e w v hv hup hswap (by rw [hzero]; exact h1)
      (by rw [hzero]; exact h2)
    refine ⟨by rw [hacq], ?_⟩
    intro name args hcmd
    exact main_spawned_of_proceeds e w name args hcmd (by rw [hacq]; rfl)

/-- A run at second 1000 that finds the text `abc` under the key. -/
theorem unparsable_text_read_as_epoch_witness :
    (emptyStore.set "lock" "abc") "lock" = some "abc" ∧
      (ParseInt "abc" 32).2 = some NumError.ErrSyntax ∧
      (getLockExpire (freshWorld (emptyStore.set "lock" "abc")) "lock" true
          (timeUnix 1000)).1 = (timeUnix 0, none) ∧
      (acquire (runAt 1000 halfHour false) (freshWorld (emptyStore.set "lock" "abc"))).1 =
        Path.reacquired ∧
      (main (runAt 1000 halfHour false)
          (freshWorld (emptyStore.set "lock" "abc"))).world.spawned = [["echo", "hi"]] :=
  ⟨by decide, by decide,
    (unparsable_text_read_as_epoch (runAt 1000 halfHour false)
      (freshWorld (emptyStore.set "lock" "abc")) "abc" (by decide) (by decide)).1,
    ((unparsable_text_read_as_epoch (runAt 1000 halfHour false)
      (freshWorld (emptyStore.set "lock" "abc")) "abc" (by decide) (by decide)).2
        rfl rfl (by decide) (by decide)).1,
    ((unparsable_text_read_as_epoch (runAt 1000 halfHour false)
      (freshWorld (emptyStore.set "lock" "abc")) "abc" (by decide) (by decide)).2
        rfl rfl (by decide) (by decide)).2 "echo" ["hi"] rfl⟩

/-- Claim C7 as stated fails.  Non-numeric text and empty text are each read
without error, as second 0; a run at second 1000 that finds `abc` under the key
takes the lock by line 138 and starts its child. -/
theorem malformed_value_counts_as_expired :
    (getLockExpire (freshWorld (emptyStore.set "lock" "abc")) "lock" true (timeUnix 1000)).1 =
        (timeUnix 0, none) ∧
      (getLockExpire (freshWorld (emptyStore.set "lock" "")) "lock" true (timeUnix 1000)).1 =
        (timeUnix 0, none) ∧
      (acquire (runAt 1000 halfHour false) (freshWorld (emptyStore.set "lock" "abc"))).1 =
        Path.reacquired ∧
      (main (runAt 1000 halfHour false)
          (freshWorld (emptyStore.set "lock" "abc"))).world.spawned = [["echo", "hi"]] := by
  decide

/-! ## A key that is held -/

/-- Within the 32-bit range scenario B holds in general: when the key holds the
text of an expiry below `2^31` seconds, the read reaches the store and the
clock of line 134 is strictly before that expiry, the run leaves by line 147
with status 1; it sent `Setnx` and `Get` and nothing else, so no release was
attempted, the store is as it was and no child was started. -/
theorem denied_within_int32 (e : Env) (w : World) (i : Int)
    (hkey : w.store e.Key = some (FormatInt i)) (hhi : i < 2147483648)
    (hup : e.getUp = true) (hnow : e.now1 < timeUnix i) :
    main e w =
      ⟨⟨w.store,
          w.calls ++ [Call.Setnx e.Key
            (FormatInt (unixSeconds (makeExpiryTime e.now0 e.LockTimeout)))] ++ [Call.Get e.Key],
          w.spawned⟩, 1⟩ := by
  have hlock := acquire_locked e w _ hkey hup (by
    rw [ParseInt32_FormatInt]
    exact le_trans (le_of_lt hnow) (timeUnix_le (le_clampInt32 _ hhi)))
  rw [main_of_denied e w (by rw [hlock]; rfl), hlock]

/-- Claim C8, which the code breaks.  The key holds the expiry 2147485000 s and
every clock of the run reads 2147484000 s, strictly before it.  Line 105 reads
the stored text with 32 bits and gets 2147483647 s: the run takes the lock by
line 138, overwrites the stored value, starts the child and ends with status
0. -/
theorem held_key_taken_past_int32 :
    timeUnix 2147484000 < timeUnix 2147485000 ∧
      (acquire (runAt 2147484000 halfHour false)
          (freshWorld (emptyStore.set "lock" (FormatInt 2147485000)))).1 = Path.reacquired ∧
      (main (runAt 2147484000 halfHour false)
          (freshWorld (emptyStore.set "lock" (FormatInt 2147485000)))).exit = 0 ∧
      (main (runAt 2147484000 halfHour false)
          (freshWorld (emptyStore.set "lock" (FormatInt 2147485000)))).world.spawned =
        [["echo", "hi"]] ∧
      (main (runAt 2147484000 halfHour false)
          (freshWorld (emptyStore.set "lock" (FormatInt 2147485000)))).world.store "lock" =
        some (FormatInt 2147485801) := by
  decide

/-! ## Release at the end of the run -/

/-- A release leaves the store as it was or removes the key, nothing else. -/
theorem unlock_store (w : World) (key : String) (r : Release) :
    (unlock w key r).store = w.store ∨ (unlock w key r).store = w.store.del key := by
  unfold unlock getLockExpire World.Get World.Del
  cases hS : w.store key <;> cases r.getUp <;> cases r.delUp <;> simp [hS] <;>
    split_ifs <;> simp

/-- Within the 32-bit range the lock is released on every exit path: when the
run took the lock by line 132 or line 138 with an expiry within the 32-bit
range, a command is given, the deferred release reaches the store and its clock
at line 67 is strictly before the run's own expiry, the key is absent when the
run ends, whether `cmd.Run()` returned an error or not. -/
theorem release_deletes_own_within_int32 (e : Env) (w : World)
    (hacq : (acquire e w).1 = Path.created ∨ (acquire e w).1 = Path.reacquired)
    (hlo : -2147483648 ≤ unixSeconds (makeExpiryTime e.now0 e.LockTimeout))
    (hhi : unixSeconds (makeExpiryTime e.now0 e.LockTimeout) < 2147483648)
    (hcmd : e.cmdArgs ≠ [])
    (hget : e.deferred.getUp = true) (hdel : e.deferred.delUp = true)
    (hnow : e.deferred.now < timeUnix (unixSeconds (makeExpiryTime e.now0 e.LockTimeout))) :
    (main e w).world.store e.Key = none := by
  have hst := acquire_stores e w hacq
  have hp : (acquire e w).1.proceeds = true := by
    rcases hacq with h | h <;> rw [h] <;> rfl
  have hone : ∀ w2 : World,
      w2.store e.Key = some (FormatInt (unixSeconds (makeExpiryTime e.now0 e.LockTimeout))) →
      (unlock w2 e.Key e.deferred).store e.Key = none := by
    intro w2 h2
    rw [unlock_deletes_unexpired w2 e.Key e.deferred _ h2 hlo hhi hget hdel hnow]
    exact Store.del_same _ _
  unfold main
  simp only [hp, if_true]
  unfold guarded
  cases hc : e.cmdArgs with
  | nil => exact absurd hc hcmd
  | cons name args =>
    cases herr : e.runErr
    · simp only [safelyRun, Bool.false_eq_true, if_false]
      exact hone _ hst
    · simp only [safelyRun, if_true]
      rcases unlock_store ⟨(acquire e w).2.store, (acquire e w).2.calls,
          (acquire e w).2.spawned ++ [name :: args]⟩ e.Key e.recovered with h | h
      · exact hone _ (by rw [h]; exact hst)
      · rw [unlock_missing _ e.Key e.deferred (by rw [h]; exact Store.del_same _ _), h]
        exact Store.del_same _ _

/-- Claim C10, which the code breaks.  Scenario A with every clock reading
2147483648 s (2038-01-19 03:14:08 UTC): the run creates the key with its own
expiry 2147485449 s and the child runs.  At the release the stored expiry is
the run's own and strictly after the clock, yet line 105 reads it with 32 bits
as 2147483647 s, before the clock: no `Del` is sent and the key is still there
when the run ends, whether the child succeeded or failed. -/
theorem own_key_kept_past_int32 :
    (acquire (runAt 2147483648 halfHour false) (freshWorld emptyStore)).1 = Path.created ∧
      (acquire (runAt 2147483648 halfHour false) (freshWorld emptyStore)).2.store "lock" =
        some (FormatInt 2147485449) ∧
      (runAt 2147483648 halfHour false).deferred.now < timeUnix 2147485449 ∧
      (main (runAt 2147483648 halfHour false) (freshWorld emptyStore)).world.calls =
        [Call.Setnx "lock" "2147485449", Call.Get "lock"] ∧
      (main (runAt 2147483648 halfHour false) (freshWorld emptyStore)).world.store "lock" =
        some (FormatInt 2147485449) ∧
      (main (runAt 2147483648 halfHour true) (freshWorld emptyStore)).world.calls =
        [Call.Setnx "lock" "2147485449", Call.Get "lock", Call.Get "lock"] ∧
      (main (runAt 2147483648 halfHour true) (freshWorld emptyStore)).world.store "lock" =
        some (FormatInt 2147485449) := by
  decide

end RedisLockRun

namespace RedisLockRun

/-! ## No command -/

/-- A run that is given no command and goes on to line 152 dies there of the
panic of line 155, with status 2 and no child; one that is denied exits with
status 1 as any other. -/
theorem no_command_exit (e : Env) (w : World) (hcmd : e.cmdArgs = []) :
    (main e w).exit = (if (acquire e w).1.proceeds = true then 2 else 1) ∧
      (main e w).world.spawned = w.spawned := by
  by_cases hp : (acquire e w).1.proceeds = true
  · have hm : main e w = ⟨unlock (acquire e w).2 e.Key e.deferred, 2⟩ := by
      unfold main guarded
      simp [hp, hcmd]
    rw [hm, if_pos hp]
    exact ⟨rfl, by rw [unlock_spawned, acquire_spawned]⟩
  · have hm : main e w = ⟨(acquire e w).2, 1⟩ := by
      unfold main
      simp [hp]
    rw [hm, if_neg hp]
    exact ⟨rfl, acquire_spawned e w⟩

/-- Claim C11, which the code breaks.  A run with an empty argument list on an
empty store: nothing checks the list, line 132 takes the lock, line 155 indexes
the empty list and panics, the deferred `unlock` deletes the key and the
process dies of the runtime fault with status 2.  No child is started. -/
theorem no_command_panics_after_locking :
    (noCommandAt 1000 halfHour).cmdArgs = [] ∧
      (acquire (noCommandAt 1000 halfHour) (freshWorld emptyStore)).1 = Path.created ∧
      (acquire (noCommandAt 1000 halfHour) (freshWorld emptyStore)).2.store "lock" =
        some (FormatInt 2801) ∧
      (main (noCommandAt 1000 halfHour) (freshWorld emptyStore)).exit = 2 ∧
      (main (noCommandAt 1000 halfHour) (freshWorld emptyStore)).world.spawned = [] ∧
      (main (noCommandAt 1000 halfHour) (freshWorld emptyStore)).world.calls =
        [Call.Setnx "lock" "2801", Call.Get "lock", Call.Del "lock"] := by
  decide

/-! ## The race for an expired key -/

/-- The acquisition is its two steps one after the other. -/
theorem acquire_eq_contend_swap (e : Env) (w : World) :
    acquire e w =
      match contend e w with
      | (Contention.created, w1) => (Path.created, w1)
      | (Contention.unread, w1) => (Path.unread, w1)
      | (Contention.locked, w1) => (Path.locked, w1)
      | (Contention.stale, w1) => swap e w1 := by
  unfold acquire contend
  simp only
  rcases w.Setnx e.setnxUp e.Key
    (FormatInt (unixSeconds (makeExpiryTime e.now0 e.LockTimeout))) with ⟨⟨ok, serr⟩, w1⟩
  cases ok
  · simp only [Bool.false_eq_true, if_false]
    rcases getLockExpire w1 e.Key e.getUp e.nowRead with ⟨⟨timeout, err⟩, w2⟩
    by_cases h1 : err = none
    · by_cases h2 : After e.now1 timeout = true
      · simp [h1, h2, swap]
      · simp [h1, h2]
    · simp [h1]
  · simp

theorem unixSeconds_mono {a b : Int} (h : a ≤ b) : unixSeconds a ≤ unixSeconds b := by
  unfold unixSeconds
  rw [Int.fdiv_eq_ediv _ (by norm_num), Int.fdiv_eq_ediv _ (by norm_num)]
  omega

theorem unixSeconds_add_second (a : Int) :
    unixSeconds (a + 1 * 1000000000) = unixSeconds a + 1 := by
  unfold unixSeconds
  rw [Int.fdiv_eq_ediv _ (by norm_num), Int.fdiv_eq_ediv _ (by norm_num)]
  omega

/-- The expiry in whole seconds, written out. -/
theorem unixSeconds_makeExpiryTime (now : Time) (LockTimeout : Duration) :
    unixSeconds (makeExpiryTime now LockTimeout) = unixSeconds (now + LockTimeout) + 1 := by
  have h : makeExpiryTime now LockTimeout = (now + LockTimeout) + 1 * 1000000000 := rfl
  rw [h]
  exact unixSeconds_add_second (now + LockTimeout)

/-- The swap on a previous value within the 32-bit range: the answer and what
the key holds afterwards. -/
theorem unlockAndLock_within_int32 (w : World) (key : String) (expire now : Time) (i : Int)
    (hprev : w.store key = some (FormatInt i))
    (hlo : -2147483648 ≤ i) (hhi : i < 2147483648) :
    (unlockAndLock w key expire true now).1 =
        (if now < timeUnix i then some "Locked" else none) ∧
      (unlockAndLock w key expire true now).2.store key =
        some (FormatInt (unixSeconds expire)) := by
  have hp : (ParseInt (FormatInt i) 32).1 = i := by
    rw [ParseInt32_FormatInt, clampInt32_of_fits i hlo hhi]
  by_cases hnow : now < timeUnix i
  · simp [unlockAndLock, World.Getset, hprev, hp, Before, hnow, Store.set]
  · simp [unlockAndLock, World.Getset, hprev, hp, Before, hnow, Store.set]

/-- Claim C12, as the code has it.  A holder has taken the key, by line 132 or
line 138, with an expiry within the 32-bit range; a loser whose clock at line
85 is before that expiry then makes its swap.  The swap is denied and leaves
the loser's own expiry under the key: its start plus its timeout plus one
second, in whole seconds.  That value is not earlier than the holder's expiry
when the loser's start plus timeout is not earlier than the holder's, and it is
earlier when the loser's start plus timeout is a second or more short of the
holder's. -/
theorem loser_writes_own_expiry (eH eL : Env) (w : World)
    (hkey : eL.Key = eH.Key)
    (hH : (acquire eH w).1 = Path.created ∨ (acquire eH w).1 = Path.reacquired)
    (hlo : -2147483648 ≤ unixSeconds (makeExpiryTime eH.now0 eH.LockTimeout))
    (hhi : unixSeconds (makeExpiryTime eH.now0 eH.LockTimeout) < 2147483648)
    (hup : eL.getsetUp = true)
    (hnow : eL.now2 < timeUnix (unixSeconds (makeExpiryTime eH.now0 eH.LockTimeout))) :
    (swap eL (acquire eH w).2).1 = Path.lost ∧
      (swap eL (acquire eH w).2).2.store eL.Key =
        some (FormatInt (unixSeconds (makeExpiryTime eL.now0 eL.LockTimeout))) ∧
      (eH.now0 + eH.LockTimeout ≤ eL.now0 + eL.LockTimeout →
        unixSeconds (makeExpiryTime eH.now0 eH.LockTimeout) ≤
          unixSeconds (makeExpiryTime eL.now0 eL.LockTimeout)) ∧
      (eL.now0 + eL.LockTimeout + Second ≤ eH.now0 + eH.LockTimeout →
        unixSeconds (makeExpiryTime eL.now0 eL.LockTimeout) <
          unixSeconds (makeExpiryTime eH.now0 eH.LockTimeout)) := by
  have hst := acquire_stores eH w hH
  rw [← hkey] at hst
  have hv := unlockAndLock_within_int32 (acquire eH w).2 eL.Key
    (makeExpiryTime eL.now0 eL.LockTimeout) eL.now2 _ hst hlo hhi
  rw [if_pos hnow] at hv
  refine ⟨?_, ?_, ?_, ?_⟩
  · unfold swap
    rw [hup]
    simp [hv.1]
  · unfold swap
    rw [hup]
    simp only [hv.1]
    exact hv.2
  · intro h
    rw [unixSeconds_makeExpiryTime, unixSeconds_makeExpiryTime]
    have := unixSeconds_mono h
    omega
  · intro h
    rw [unixSeconds_makeExpiryTime, unixSeconds_makeExpiryTime]
    have h1 : (eL.now0 + eL.LockTimeout) + 1 * 1000000000 ≤ eH.now0 + eH.LockTimeout := h
    have h2 := unixSeconds_mono h1
    rw [unixSeconds_add_second] at h2
    omega

/-- Two races at concrete instants.  In the first the loser starts a second
after the holder with the same timeout; in the second it starts together with
the holder with a timeout of one minute against thirty. -/
theorem loser_writes_own_expiry_witness :
    (acquire raceHolder staleWorld).1 = Path.reacquired ∧
      (swap (runAt 1001 halfHour false) (acquire raceHolder staleWorld).2).1 = Path.lost ∧
      (swap (runAt 1001 halfHour false) (acquire raceHolder staleWorld).2).2.store
          (runAt 1001 halfHour false).Key =
        some (FormatInt (unixSeconds (makeExpiryTime (runAt 1001 halfHour false).now0
          (runAt 1001 halfHour false).LockTimeout))) ∧
      unixSeconds (makeExpiryTime raceHolder.now0 raceHolder.LockTimeout) ≤
        unixSeconds (makeExpiryTime (runAt 1001 halfHour false).now0
          (runAt 1001 halfHour false).LockTimeout) ∧
      unixSeconds (makeExpiryTime raceLoser.now0 raceLoser.LockTimeout) <
        unixSeconds (makeExpiryTime raceHolder.now0 raceHolder.LockTimeout) :=
  ⟨by decide,
    (loser_writes_own_expiry raceHolder (runAt 1001 halfHour false) staleWorld rfl
      (Or.inr (by decide)) (by decide) (by decide) rfl (by decide)).1,
    (loser_writes_own_expiry raceHolder (runAt 1001 halfHour false) staleWorld rfl
      (Or.inr (by decide)) (by decide) (by decide) rfl (by decide)).2.1,
    (loser_writes_own_expiry raceHolder (runAt 1001 halfHour false) staleWorld rfl
      (Or.inr (by decide)) (by decide) (by decide) rfl (by decide)).2.2.1 (by decide),
    (loser_writes_own_expiry raceHolder raceLoser (contend raceLoser staleWorld).2 rfl
      (Or.inr (by decide)) (by decide) (by decide) rfl (by decide)).2.2.2 (by decide)⟩

/-- Claim C12 as stated fails.  The key holds the stale expiry 700.  The loser,
started at second 1000 with a timeout of one minute, sees the stale key; the
holder, started at second 1000 with a timeout of thirty minutes, takes the key
over and stores 2801; the loser's swap is denied and leaves 1061 under the key,
earlier than the holder's expiry.  With equal timeouts a loser started one
second before the holder leaves 2800. -/
theorem loser_writes_earlier_expiry :
    (contend raceLoser staleWorld).1 = Contention.stale ∧
      (acquire raceHolder (contend raceLoser staleWorld).2).1 = Path.reacquired ∧
      raceWorld.store "lock" = some (FormatInt 2801) ∧
      (swap raceLoser raceWorld).1 = Path.lost ∧
      (swap raceLoser raceWorld).2.store "lock" = some (FormatInt 1061) ∧
      (1061 : Int) < 2801 ∧
      ((contend (runAt 999 halfHour false) staleWorld).1 = Contention.stale ∧
        (swap (runAt 999 halfHour false)
          (acquire raceHolder (contend (runAt 999 halfHour false) staleWorld).2).2).1 =
          Path.lost ∧
        (swap (runAt 999 halfHour false)
          (acquire raceHolder (contend (runAt 999 halfHour false) staleWorld).2).2).2.store
            "lock" = some (FormatInt 2800)) := by
  decide

/-! ## A stale key -/

/-- Within the 32-bit range scenario C holds in general: the key holds the text
of an expiry not below `-2^31` seconds that is strictly before the clock of
line 134 and not after the clock of line 85, the store is reachable, the run's
own expiry is within the 32-bit range, a command is given and the clock of the
deferred release is strictly before the run's own expiry.  Then the run takes
the lock by line 138, the key holds the run's own expiry, the child is started
once, and when the run ends the key is absent. -/
theorem stale_key_run_within_int32 (e : Env) (w : World) (i : Int)
    (name : String) (args : List String)
    (hkey : w.store e.Key = some (FormatInt i)) (hi : -2147483648 ≤ i)
    (hstale1 : timeUnix i < e.now1) (hstale2 : timeUnix i ≤ e.now2)
    (hget : e.getUp = true) (hswap : e.getsetUp = true)
    (hlo : -2147483648 ≤ unixSeconds (makeExpiryTime e.now0 e.LockTimeout))
    (hhi : unixSeconds (makeExpiryTime e.now0 e.LockTimeout) < 2147483648)
    (hcmd : e.cmdArgs = name :: args)
    (hrget : e.deferred.getUp = true) (hrdel : e.deferred.delUp = true)
    (hnow : e.deferred.now < timeUnix (unixSeconds (makeExpiryTime e.now0 e.LockTimeout))) :
    (contend e w).1 = Contention.stale ∧
      (acquire e w).1 = Path.reacquired ∧
      (acquire e w).2.store e.Key =
        some (FormatInt (unixSeconds (makeExpiryTime e.now0 e.LockTimeout))) ∧
      (main e w).world.spawned = w.spawned ++ [name :: args] ∧
      (main e w).world.store e.Key = none := by
  have hclamp := timeUnix_le (clampInt32_le i hi)
  have h1 : timeUnix (ParseInt (FormatInt i) 32).1 < e.now1 := by
    rw [ParseInt32_FormatInt]
    exact lt_of_le_of_lt hclamp hstale1
  have h2 : timeUnix (ParseInt (FormatInt i) 32).1 ≤ e.now2 := by
    rw [ParseInt32_FormatInt]
    exact le_trans hclamp hstale2
  have hacq := acquire_reacquired e w _ hkey hget hswap h1 h2
  have hpath : (acquire e w).1 = Path.reacquired := by rw [hacq]
  have hcont : (contend e w).1 = Contention.stale := by
    have hafter : After e.now1 (timeUnix (ParseInt (FormatInt i) 32).1) = true := by
      simp only [After, decide_eq_true_eq]
      exact h1
    unfold contend
    cases e.setnxUp <;> simp [World.Setnx, hkey, hget, getLockExpire, World.Get, hafter]
  refine ⟨hcont, hpath, acquire_stores e w (Or.inr hpath), ?_, ?_⟩
  · exact main_spawned_of_proceeds e w name args hcmd (by rw [hpath]; rfl)
  · exact release_deletes_own_within_int32 e w (Or.inr hpath) hlo hhi
      (by rw [hcmd]; exact List.cons_ne_nil _ _) hrget hrdel hnow

/-- Claim C13, which the code breaks.  Scenario C with every clock reading
2147484000 s (2038-01-19 03:20:00 UTC): the key holds the stale expiry
2147483700 s, five minutes before now, and the timeout is thirty minutes.  The
run is contended, takes the lock by line 138, stores its own expiry
2147485801 s and starts the child.  At the release its own expiry is still in
the future, yet line 105 reads it with 32 bits as 2147483647 s, before the
clock: no `Del` is sent and the key is still there when the run ends. -/
theorem stale_key_run_keeps_key_past_int32 :
    timeUnix 2147483700 < (runAt 2147484000 halfHour false).now1 ∧
      (contend (runAt 2147484000 halfHour false)
          (freshWorld (emptyStore.set "lock" (FormatInt 2147483700)))).1 = Contention.stale ∧
      (acquire (runAt 2147484000 halfHour false)
          (freshWorld (emptyStore.set "lock" (FormatInt 2147483700)))).1 = Path.reacquired ∧
      (acquire (runAt 2147484000 halfHour false)
          (freshWorld (emptyStore.set "lock" (FormatInt 2147483700)))).2.store "lock" =
        some (FormatInt 2147485801) ∧
      (main (runAt 2147484000 halfHour false)
          (freshWorld (emptyStore.set "lock" (FormatInt 2147483700)))).world.spawned =
        [["echo", "hi"]] ∧
      (runAt 2147484000 halfHour false).deferred.now < timeUnix 2147485801 ∧
      (main (runAt 2147484000 halfHour false)
          (freshWorld (emptyStore.set "lock" (FormatInt 2147483700)))).world.calls =
        [Call.Setnx "lock" "2147485801", Call.Get "lock", Call.Getset "lock" "2147485801",
          Call.Get "lock"] ∧
      (main (runAt 2147484000 halfHour false)
          (freshWorld (emptyStore.set "lock" (FormatInt 2147483700)))).world.store "lock" =
        some (FormatInt 2147485801) := by
  decide

/-! ## The stored expiry read back -/

theorem unixSeconds_timeUnix (sec : Int) : unixSeconds (timeUnix sec) = sec := by
  unfold unixSeconds timeUnix
  rw [Int.fdiv_eq_ediv _ (by norm_num)]
  omega

/-- What a reader gets back from the expiry an acquirer wrote: the instant of
the expiry's whole seconds forced into the 32-bit range, hence the same count
of seconds exactly when that count is within the 32-bit range. -/
theorem expiry_read_back (e : Env) (w : World) (now : Time)
    (hacq : (acquire e w).1 = Path.created ∨ (acquire e w).1 = Path.reacquired) :
    (getLockExpire (acquire e w).2 e.Key true now).1 =
        (timeUnix (clampInt 32 (unixSeconds (makeExpiryTime e.now0 e.LockTimeout))), none) ∧
      (-2147483648 ≤ unixSeconds (makeExpiryTime e.now0 e.LockTimeout) →
        unixSeconds (makeExpiryTime e.now0 e.LockTimeout) < 2147483648 →
        unixSeconds (getLockExpire (acquire e w).2 e.Key true now).1.1 =
          unixSeconds (makeExpiryTime e.now0 e.LockTimeout)) := by
  have hst := acquire_stores e w hacq
  have hread := getLockExpire_found (acquire e w).2 e.Key _ now hst
  rw [ParseInt32_FormatInt] at hread
  refine ⟨by rw [hread], ?_⟩
  intro hlo hhi
  rw [hread, clampInt32_of_fits _ hlo hhi]
  exact unixSeconds_timeUnix _

/-- Claim C14, which the code breaks.  A run at second 2147481847 with the
default timeout takes the lock on an empty store; its expiry has the seconds
count 2147483648 and that is the text it writes.  Read back by `getLockExpire`
the key gives the instant of second 2147483647, one second less; and
`unlockAndLock`, given that text as the previous value at a clock of
2147483647.5 s, before the expiry written, reads it as not after the clock and
answers `nil`. -/
theorem expiry_round_trip_lost_past_int32 :
    (acquire (runAt 2147481847 halfHour false) (freshWorld emptyStore)).1 = Path.created ∧
      unixSeconds (makeExpiryTime (runAt 2147481847 halfHour false).now0 halfHour) =
        2147483648 ∧
      (acquire (runAt 2147481847 halfHour false) (freshWorld emptyStore)).2.store "lock" =
        some (FormatInt 2147483648) ∧
      (getLockExpire (acquire (runAt 2147481847 halfHour false) (freshWorld emptyStore)).2
          "lock" true 0).1 = (timeUnix 2147483647, none) ∧
      unixSeconds (getLockExpire
          (acquire (runAt 2147481847 halfHour false) (freshWorld emptyStore)).2
          "lock" true 0).1.1 = 2147483647 ∧
      ((2147483647500000000 : Int) < timeUnix 2147483648 ∧
        (unlockAndLock (acquire (runAt 2147481847 halfHour false) (freshWorld emptyStore)).2
          "lock" (timeUnix 2147485000) true 2147483647500000000).1 = none) := by
  decide

/-! ## Whole seconds and the timeout -/

theorem lt_next_second (a : Int) : a < (Int.fdiv a 1000000000 + 1) * 1000000000 := by
  rw [Int.fdiv_eq_ediv _ (by norm_num)]
  omega

/-- The whole second written to the store lies strictly after the acquisition
instant plus the timeout, for every instant and every timeout: the second of
grace outweighs the truncation. -/
theorem stored_expiry_after_timeout (now0 : Time) (LockTimeout : Duration) :
    now0 + LockTimeout < timeUnix (unixSeconds (makeExpiryTime now0 LockTimeout)) := by
  rw [unixSeconds_makeExpiryTime]
  exact lt_next_second (now0 + LockTimeout)

/-- Within the 32-bit range the lock is honoured for the full timeout: when a
first run has taken the lock with an expiry below `2^31` seconds, a competing
run on the same key that reads the key and whose clock at line 134 is at most
the first run's start plus its timeout leaves by line 147 with status 1 and
starts no child. -/
theorem competitor_denied_within_int32 (e1 e2 : Env) (w : World)
    (hkey : e2.Key = e1.Key)
    (hacq : (acquire e1 w).1 = Path.created ∨ (acquire e1 w).1 = Path.reacquired)
    (hfit : unixSeconds (makeExpiryTime e1.now0 e1.LockTimeout) < 2147483648)
    (hup : e2.getUp = true)
    (hnow : e2.now1 ≤ e1.now0 + e1.LockTimeout) :
    (acquire e2 (acquire e1 w).2).1 = Path.locked ∧
      (main e2 (acquire e1 w).2).exit = 1 ∧
      (main e2 (acquire e1 w).2).world.spawned = w.spawned :=
  mutual_exclusion_within_int32 e1 e2 w hkey hacq hfit hup
    (le_trans hnow (le_of_lt (stored_expiry_after_timeout e1.now0 e1.LockTimeout)))

/-- Claim C15, which the code breaks.  A run takes the lock on an empty store
at 2147483000.5 s with the default timeout and writes the whole second
2147484801, which lies after its start plus the timeout.  A competing run whose
every clock reads the first run's start plus the timeout, 2147484800.5 s, reads
the stored text with 32 bits as 2147483647 s (line 105), finds the lock
expired, takes it by line 138 and starts its child. -/
theorem competitor_acquires_past_int32 :
    (0 : Int) ≤ 2147483000500000000 ∧ (0 : Int) ≤ halfHour ∧
      (acquire (runAtInstant 2147483000500000000 halfHour false)
          (freshWorld emptyStore)).1 = Path.created ∧
      (acquire (runAtInstant 2147483000500000000 halfHour false)
          (freshWorld emptyStore)).2.store "lock" = some (FormatInt 2147484801) ∧
      (2147483000500000000 : Int) + halfHour < timeUnix 2147484801 ∧
      (runAtInstant (2147483000500000000 + halfHour) halfHour false).now1 ≤
        2147483000500000000 + halfHour ∧
      (acquire (runAtInstant (2147483000500000000 + halfHour) halfHour false)
          (acquire (runAtInstant 2147483000500000000 halfHour false)
            (freshWorld emptyStore)).2).1 = Path.reacquired ∧
      (main (runAtInstant (2147483000500000000 + halfHour) halfHour false)
          (acquire (runAtInstant 2147483000500000000 halfHour false)
            (freshWorld emptyStore)).2).world.spawned = [["echo", "hi"]] := by
  decide

/-! ## The database index -/

/-- What `ParseFromEnvironment` leaves in `RedisDb`: the previous value when
`REDISLOCKRUN_DB` parses without error, and what `ParseInt` returned next to
its error when it does not. -/
theorem ParseFromEnvironment_RedisDb (conf : Config) (getenv : String → String) :
    (ParseFromEnvironment conf getenv).RedisDb =
      if (ParseInt (getenv "REDISLOCKRUN_DB") 8).2 = none then conf.RedisDb
      else (ParseInt (getenv "REDISLOCKRUN_DB") 8).1 := by
  unfold ParseFromEnvironment
  by_cases h : (ParseInt (getenv "REDISLOCKRUN_DB") 8).2 = none
  · simp [h]
  · simp [h]

/-- A decimal integer within the 8-bit range leaves `RedisDb` at its previous
value, whatever the integer. -/
theorem valid_db_is_ignored (conf : Config) (getenv : String → String) (i : Int)
    (henv : getenv "REDISLOCKRUN_DB" = FormatInt i) (hlo : -128 ≤ i) (hhi : i ≤ 127) :
    (ParseFromEnvironment conf getenv).RedisDb = conf.RedisDb := by
  have hc : clampInt 8 i = i := by
    unfold clampInt
    norm_num
    rw [if_neg (by omega), if_neg (by omega)]
  rw [ParseFromEnvironment_RedisDb, henv, ParseInt_FormatInt i 8 (by norm_num) (by norm_num)]
  simp [hc]

/-- Claim C16, which the code breaks.  Starting from the configuration of line
116, whose `RedisDb` is 0: with `REDISLOCKRUN_DB=5`, a valid integer, `RedisDb`
stays 0; with `REDISLOCKRUN_DB=300`, which fails to parse, `RedisDb` becomes
127, and with `-200` it becomes -128.  Starting from a `RedisDb` of 3: with `5`
it stays 3, and with `abc`, which fails to parse, it becomes 0. -/
theorem redis_db_set_only_on_parse_error :
    ParseInt "5" 8 = (5, none) ∧
      (ParseFromEnvironment initialConfig (envWithDb "5")).RedisDb = 0 ∧
      (ParseInt "300" 8).2 = some NumError.ErrRange ∧
      (ParseFromEnvironment initialConfig (envWithDb "300")).RedisDb = 127 ∧
      (ParseFromEnvironment initialConfig (envWithDb "-200")).RedisDb = -128 ∧
      (ParseFromEnvironment ⟨"lock", 3, "", "", 0⟩ (envWithDb "5")).RedisDb = 3 ∧
      (ParseInt "abc" 8).2 = some NumError.ErrSyntax ∧
      (ParseFromEnvironment ⟨"lock", 3, "", "", 0⟩ (envWithDb "abc")).RedisDb = 0 := by
  decide

end RedisLockRun
